import Mathlib

/-!
Verification of the proxishare transfer core (`src-tauri/src/transfer/`):
a shallow embedding of the sender state machine (`sender.rs`), the
receiver state machine (`receiver.rs`) and the framed bincode message
codec (`write_message` / `read_message`), together with proofs about the
chunking discipline, cancellation, completion acknowledgment, disk-space
pre-flight, chunk-hash checking and codec round-trips.

Conventions of the embedding:
* Rust byte buffers and strings are modelled as `List Nat` of byte
  values; machine integers are `Nat` / `Int` with explicit `% 2 ^ w`
  at the points where the source casts or can overflow
  (`data.len() as u32`, the `u32` chunk counter, `as i64` casts).
* The BLAKE3 hash is an abstract parameter `h : List Nat → List Nat`
  (the code only ever compares its lowercase-hex output for equality).
* Asynchronous effects (stream writes, registry writes, UI events,
  database writes) are recorded as an explicit list of `Action`s.
* Possibly non-terminating loops take a fuel argument and return
  `Option`; `none` models divergence / fuel exhaustion.
-/

namespace Proxishare

/-- Byte strings: Rust `String` / `Vec<u8>` contents as a list of byte
values. -/
abbrev RStr := List Nat

/-- Transfer status registry values, from `lib.rs`
(`pub enum TransferStatus`). -/
inductive TStatus where
  | inProgress
  | paused
  | cancelled
  | completed
  | failed
deriving DecidableEq, Repr

/-- File metadata carried by a `FileOffer`, from `protocol.rs`
(`pub struct FileMetadata`): `name: String`, `size: u64`,
`hash: String`, `chunk_size: u32`. -/
structure FileMetadata where
  name : RStr
  size : Nat
  hash : RStr
  chunkSize : Nat
deriving DecidableEq, Repr

/-- History database row, from `db/mod.rs` (`pub struct TransferRecord`).
The `i64` columns are modelled as `Int`. -/
structure TransferRecord where
  id : RStr
  deviceId : RStr
  deviceName : Option RStr
  fileName : RStr
  filePath : RStr
  totalSize : Int
  direction : RStr
  status : RStr
  bytesTransferred : Int
  fileHash : RStr
  createdAt : Int
  updatedAt : Int
deriving DecidableEq, Repr

/-- Protocol messages, from `protocol.rs` (`pub enum MessageType`), in
declaration order (the order fixes the bincode variant tags).

Modelled from the spec: the variants `TransferPause`, `TransferResume`
and `TransferCancel` are constructed and consumed by `sender.rs` and
`receiver.rs` but are missing from the `MessageType` declaration in the
`protocol.rs` revision present in the tree; they are added here with the
fields given by spec §4.B (a single `transfer_id`), placed between
`ResumeRequest` and `TransferComplete` following the relative order of
the §4.B table. -/
inductive MessageType where
  | Hello (deviceId deviceName : RStr)
  | HelloAck
  | FileOffer (transferId : RStr) (metadata : FileMetadata)
      (senderId senderName : RStr)
  | FileAccept (transferId : RStr)
  | FileReject (transferId reason : RStr)
  | ChunkData (transferId : RStr) (chunkIndex : Nat) (data : List Nat)
      (chunkHash : RStr)
  | ChunkAck (transferId : RStr) (chunkIndex : Nat)
  | ResumeRequest (transferId : RStr) (lastChunkIndex : Nat)
  | TransferPause (transferId : RStr)
  | TransferResume (transferId : RStr)
  | TransferCancel (transferId : RStr)
  | TransferComplete (transferId : RStr)
  | TransferCompleteAck (transferId : RStr)
  | TransferError (transferId message : RStr)
  | PairRequest (deviceId deviceName pairingCode : RStr)
  | PairResponse (accepted : Bool) (deviceId : RStr)
  | HistorySync (records : List TransferRecord)
  | SyncRequest (folderPath : RStr) (files : List FileMetadata)
  | SyncResponse (missingFiles : List RStr)
deriving DecidableEq, Repr

/-- Observable side effects of the two state machines: messages written
to the stream, registry writes, UI events and history-database writes. -/
inductive Action where
  | sendMsg (m : MessageType)
  | regWrite (tid : RStr) (st : TStatus)
  | progressEvt (tid : RStr) (bytes total : Nat) (send : Bool)
  | historyUpdated
  | dbRecord (id deviceId fname fpath : RStr) (total : Int)
      (direction hash : RStr)
  | dbUpdateStatus (id status : RStr) (bytes : Int)
  | pairingEvt (deviceId deviceName code : RStr)
  | connClose
deriving DecidableEq, Repr

/-- Interpretation of a `usize`/`u64` value as the Rust `as i64` cast
(two's complement wrap at `2 ^ 64`). -/
def toI64 (n : Nat) : Int :=
  if n % 2 ^ 64 < 2 ^ 63 then ((n % 2 ^ 64 : Nat) : Int)
  else ((n % 2 ^ 64 : Nat) : Int) - 2 ^ 64

/-- Chunk-size selection, from `sender.rs` (`fn calculate_chunk_size`):
64 KiB below 1 MiB, 1 MiB below 100 MiB, 4 MiB otherwise. -/
def calculate_chunk_size (file_size : Nat) : Nat :=
  if file_size < 1024 * 1024 then 64 * 1024
  else if file_size < 100 * 1024 * 1024 then 1 * 1024 * 1024
  else 4 * 1024 * 1024

/-- Number of `ChunkData` messages the sender's loop produces for `rem`
remaining bytes and chunk size `c`: `⌈rem / c⌉`. -/
def numChunks (c rem : Nat) : Nat := if c = 0 then 0 else (rem + c - 1) / c

theorem calculate_chunk_size_pos (s : Nat) : 0 < calculate_chunk_size s := by
  unfold calculate_chunk_size
  split <;> [decide; split <;> decide]

/-!
Framed message codec: `FileSender::write_message` / `read_message`
(`sender.rs`, duplicated verbatim in `receiver.rs`).  The payload is the
bincode (legacy/default configuration) serialization of `MessageType`:
fixed-width little-endian integers, `u32` little-endian enum variant
tags in declaration order, `u64` little-endian length prefixes for
strings and vectors, one byte for `bool` and for `Option` tags.  The
frame is a `u32` big-endian byte-length prefix; the source computes it
as `data.len() as u32`, i.e. truncating modulo `2 ^ 32`.
-/

/-- Little-endian byte encoding of `n % 256 ^ w` in `w` bytes. -/
def leBytes (w n : Nat) : List Nat :=
  match w with
  | 0 => []
  | w + 1 => n % 256 :: leBytes w (n / 256)

/-- Value of a little-endian byte list. -/
def leVal (bs : List Nat) : Nat := bs.foldr (fun b acc => b + 256 * acc) 0

/-- Big-endian 4-byte encoding of `n % 2 ^ 32` (Rust
`(n as u32).to_be_bytes()`). -/
def beBytes32 (n : Nat) : List Nat := (leBytes 4 n).reverse

/-- Value of a big-endian byte list (Rust `u32::from_be_bytes`). -/
def beVal (bs : List Nat) : Nat := bs.foldl (fun acc b => acc * 256 + b) 0

/-- Bincode serialization of a `u32`. -/
def serU32 (n : Nat) : List Nat := leBytes 4 n

/-- Bincode serialization of a `u64`. -/
def serU64 (n : Nat) : List Nat := leBytes 8 n

/-- Bincode serialization of an `i64` (two's complement). -/
def serI64 (n : Int) : List Nat := leBytes 8 (n % (2 ^ 64 : Int)).toNat

/-- Bincode serialization of a `String` or `Vec<u8>`: `u64` length
prefix followed by the bytes. -/
def serStr (s : RStr) : List Nat := serU64 s.length ++ s

/-- Bincode serialization of a `bool`. -/
def serBool (b : Bool) : List Nat := [if b then 1 else 0]

/-- Bincode serialization of an `Option<String>`. -/
def serOptStr (o : Option RStr) : List Nat :=
  match o with
  | none => [0]
  | some s => 1 :: serStr s

/-- Bincode serialization of a `Vec<T>` given an element serializer. -/
def serVec (f : α → List Nat) (l : List α) : List Nat :=
  serU64 l.length ++ (l.map f).flatten

/-- Bincode serialization of a `FileMetadata` (fields in declaration
order). -/
def serMeta (m : FileMetadata) : List Nat :=
  serStr m.name ++ serU64 m.size ++ serStr m.hash ++ serU32 m.chunkSize

/-- Bincode serialization of a `TransferRecord` (fields in declaration
order). -/
def serRecord (r : TransferRecord) : List Nat :=
  serStr r.id ++ serStr r.deviceId ++ serOptStr r.deviceName ++
  serStr r.fileName ++ serStr r.filePath ++ serI64 r.totalSize ++
  serStr r.direction ++ serStr r.status ++ serI64 r.bytesTransferred ++
  serStr r.fileHash ++ serI64 r.createdAt ++ serI64 r.updatedAt

/-- Bincode serialization of a `MessageType` value: `u32` variant tag in
declaration order followed by the fields. -/
def serMessage : MessageType → List Nat
  | .Hello a b => serU32 0 ++ serStr a ++ serStr b
  | .HelloAck => serU32 1
  | .FileOffer tid md sid sn =>
      serU32 2 ++ serStr tid ++ serMeta md ++ serStr sid ++ serStr sn
  | .FileAccept tid => serU32 3 ++ serStr tid
  | .FileReject tid r => serU32 4 ++ serStr tid ++ serStr r
  | .ChunkData tid idx data h =>
      serU32 5 ++ serStr tid ++ serU32 idx ++ serStr data ++ serStr h
  | .ChunkAck tid idx => serU32 6 ++ serStr tid ++ serU32 idx
  | .ResumeRequest tid idx => serU32 7 ++ serStr tid ++ serU32 idx
  | .TransferPause tid => serU32 8 ++ serStr tid
  | .TransferResume tid => serU32 9 ++ serStr tid
  | .TransferCancel tid => serU32 10 ++ serStr tid
  | .TransferComplete tid => serU32 11 ++ serStr tid
  | .TransferCompleteAck tid => serU32 12 ++ serStr tid
  | .TransferError tid msg => serU32 13 ++ serStr tid ++ serStr msg
  | .PairRequest di dn pc => serU32 14 ++ serStr di ++ serStr dn ++ serStr pc
  | .PairResponse acc di => serU32 15 ++ serBool acc ++ serStr di
  | .HistorySync recs => serU32 16 ++ serVec serRecord recs
  | .SyncRequest fp files => serU32 17 ++ serStr fp ++ serVec serMeta files
  | .SyncResponse mf => serU32 18 ++ serVec serStr mf

/-- Parser type: consume a prefix of the byte stream or fail. -/
abbrev Parser (α : Type) := List Nat → Option (α × List Nat)

/-- Read exactly `n` bytes (bincode readers fail on end of input). -/
def readN (n : Nat) : Parser (List Nat) := fun s =>
  if n ≤ s.length then some (s.take n, s.drop n) else none

/-- Read a little-endian `u32`. -/
def readU32 : Parser Nat := fun s =>
  (readN 4 s).map (fun p => (leVal p.1, p.2))

/-- Read a little-endian `u64`. -/
def readU64 : Parser Nat := fun s =>
  (readN 8 s).map (fun p => (leVal p.1, p.2))

/-- Read an `i64` (two's complement decode of the `u64` bit pattern). -/
def readI64 : Parser Int := fun s =>
  (readU64 s).map (fun p =>
    (if p.1 < 2 ^ 63 then (p.1 : Int) else (p.1 : Int) - 2 ^ 64, p.2))

/-- Read a length-prefixed `String` / `Vec<u8>`.  The UTF-8 validity
check bincode performs for `String` is not modelled (serialized strings
are always valid, so it cannot affect round-trips). -/
def readStr : Parser RStr := fun s =>
  match readU64 s with
  | none => none
  | some (n, s1) => readN n s1

/-- Read a `bool` (bincode rejects bytes other than 0 and 1). -/
def readBool : Parser Bool := fun s =>
  match s with
  | 0 :: r => some (false, r)
  | 1 :: r => some (true, r)
  | _ => none

/-- Read an `Option<String>`. -/
def readOptStr : Parser (Option RStr) := fun s =>
  match s with
  | 0 :: r => some (none, r)
  | 1 :: r => (readStr r).map (fun p => (some p.1, p.2))
  | _ => none

/-- Read `n` values with a given element parser. -/
def readList (p : Parser α) : Nat → Parser (List α)
  | 0 => fun s => some ([], s)
  | n + 1 => fun s =>
    match p s with
    | none => none
    | some (a, s1) =>
      match readList p n s1 with
      | none => none
      | some (l, s2) => some (a :: l, s2)

/-- Read a length-prefixed `Vec<T>`. -/
def readVec (p : Parser α) : Parser (List α) := fun s =>
  match readU64 s with
  | none => none
  | some (n, s1) => readList p n s1

/-- Read a `FileMetadata`. -/
def readMeta : Parser FileMetadata := fun s =>
  match readStr s with
  | none => none
  | some (name, s1) =>
    match readU64 s1 with
    | none => none
    | some (size, s2) =>
      match readStr s2 with
      | none => none
      | some (hash, s3) =>
        match readU32 s3 with
        | none => none
        | some (cs, s4) => some (⟨name, size, hash, cs⟩, s4)

/-- Read a `TransferRecord`. -/
def readRecord : Parser TransferRecord := fun s =>
  match readStr s with
  | none => none
  | some (id, s1) =>
    match readStr s1 with
    | none => none
    | some (did, s2) =>
      match readOptStr s2 with
      | none => none
      | some (dn, s3) =>
        match readStr s3 with
        | none => none
        | some (fn, s4) =>
          match readStr s4 with
          | none => none
          | some (fp, s5) =>
            match readI64 s5 with
            | none => none
            | some (ts, s6) =>
              match readStr s6 with
              | none => none
              | some (dir, s7) =>
                match readStr s7 with
                | none => none
                | some (st, s8) =>
                  match readI64 s8 with
                  | none => none
                  | some (bt, s9) =>
                    match readStr s9 with
                    | none => none
                    | some (fh, s10) =>
                      match readI64 s10 with
                      | none => none
                      | some (ca, s11) =>
                        match readI64 s11 with
                        | none => none
                        | some (ua, s12) =>
                          some (⟨id, did, dn, fn, fp, ts, dir, st, bt,
                                 fh, ca, ua⟩, s12)

/-- Parse a `MessageType`: `u32` variant tag, then the fields; unknown
tags fail (bincode rejects out-of-range variant indices). -/
def readMessageBody : Parser MessageType := fun s =>
  match readU32 s with
  | none => none
  | some (tag, s0) =>
    if tag = 0 then
      match readStr s0 with
      | none => none
      | some (a, s1) => (readStr s1).map (fun p => (.Hello a p.1, p.2))
    else if tag = 1 then some (.HelloAck, s0)
    else if tag = 2 then
      match readStr s0 with
      | none => none
      | some (tid, s1) =>
        match readMeta s1 with
        | none => none
        | some (md, s2) =>
          match readStr s2 with
          | none => none
          | some (sid, s3) =>
            (readStr s3).map (fun p => (.FileOffer tid md sid p.1, p.2))
    else if tag = 3 then (readStr s0).map (fun p => (.FileAccept p.1, p.2))
    else if tag = 4 then
      match readStr s0 with
      | none => none
      | some (tid, s1) => (readStr s1).map (fun p => (.FileReject tid p.1, p.2))
    else if tag = 5 then
      match readStr s0 with
      | none => none
      | some (tid, s1) =>
        match readU32 s1 with
        | none => none
        | some (idx, s2) =>
          match readStr s2 with
          | none => none
          | some (data, s3) =>
            (readStr s3).map (fun p => (.ChunkData tid idx data p.1, p.2))
    else if tag = 6 then
      match readStr s0 with
      | none => none
      | some (tid, s1) => (readU32 s1).map (fun p => (.ChunkAck tid p.1, p.2))
    else if tag = 7 then
      match readStr s0 with
      | none => none
      | some (tid, s1) =>
        (readU32 s1).map (fun p => (.ResumeRequest tid p.1, p.2))
    else if tag = 8 then (readStr s0).map (fun p => (.TransferPause p.1, p.2))
    else if tag = 9 then (readStr s0).map (fun p => (.TransferResume p.1, p.2))
    else if tag = 10 then (readStr s0).map (fun p => (.TransferCancel p.1, p.2))
    else if tag = 11 then
      (readStr s0).map (fun p => (.TransferComplete p.1, p.2))
    else if tag = 12 then
      (readStr s0).map (fun p => (.TransferCompleteAck p.1, p.2))
    else if tag = 13 then
      match readStr s0 with
      | none => none
      | some (tid, s1) =>
        (readStr s1).map (fun p => (.TransferError tid p.1, p.2))
    else if tag = 14 then
      match readStr s0 with
      | none => none
      | some (di, s1) =>
        match readStr s1 with
        | none => none
        | some (dn, s2) => (readStr s2).map (fun p => (.PairRequest di dn p.1, p.2))
    else if tag = 15 then
      match readBool s0 with
      | none => none
      | some (acc, s1) =>
        (readStr s1).map (fun p => (.PairResponse acc p.1, p.2))
    else if tag = 16 then
      (readVec readRecord s0).map (fun p => (.HistorySync p.1, p.2))
    else if tag = 17 then
      match readStr s0 with
      | none => none
      | some (fp, s1) =>
        (readVec readMeta s1).map (fun p => (.SyncRequest fp p.1, p.2))
    else if tag = 18 then
      (readVec readStr s0).map (fun p => (.SyncResponse p.1, p.2))
    else none

/-- Bincode deserialization entry point (`bincode::deserialize` allows
trailing bytes, so only the parsed value is kept). -/
def bincodeDeserialize (b : List Nat) : Option MessageType :=
  (readMessageBody b).map Prod.fst

/-- Byte stream produced by `FileSender::write_message`: big-endian
`data.len() as u32` length prefix (truncating modulo `2 ^ 32`) followed
by the bincode payload. -/
def write_message (m : MessageType) : List Nat :=
  beBytes32 (serMessage m).length ++ serMessage m

/-- Behaviour of `FileSender::read_message` on a byte stream: read four
length bytes, then exactly that many payload bytes, then deserialize. -/
def read_message (s : List Nat) : Option MessageType :=
  (readN 4 s).bind fun p1 =>
    (readN (beVal p1.1) p1.2).bind fun p2 =>
      bincodeDeserialize p2.1

/-!
Well-formedness of a message value: every field fits in the Rust machine
type it is declared with (`u32` indices and chunk sizes, `u64` sizes and
lengths, `i64` database columns).  Any value produced by the Rust code
satisfies this by construction; in the embedding, where `Nat`/`Int` are
unbounded, it is an explicit side condition.
-/

/-- A byte string whose `u64` bincode length prefix does not wrap. -/
def strWF (s : RStr) : Bool := decide (s.length < 2 ^ 64)

/-- An `Int` representable as an `i64`. -/
def i64WF (n : Int) : Bool := decide (-(2 ^ 63 : Int) ≤ n ∧ n < 2 ^ 63)

/-- Optional string well-formedness. -/
def optStrWF : Option RStr → Bool
  | none => true
  | some s => strWF s

/-- Well-formed `FileMetadata`. -/
def metaWF (m : FileMetadata) : Bool :=
  strWF m.name && decide (m.size < 2 ^ 64) && strWF m.hash &&
  decide (m.chunkSize < 2 ^ 32)

/-- Well-formed `TransferRecord`. -/
def recordWF (r : TransferRecord) : Bool :=
  strWF r.id && strWF r.deviceId && optStrWF r.deviceName &&
  strWF r.fileName && strWF r.filePath && i64WF r.totalSize &&
  strWF r.direction && strWF r.status && i64WF r.bytesTransferred &&
  strWF r.fileHash && i64WF r.createdAt && i64WF r.updatedAt

/-- Well-formed list of values. -/
def listWF (f : α → Bool) (l : List α) : Bool :=
  decide (l.length < 2 ^ 64) && l.all f

/-- Well-formed `MessageType` value. -/
def msgWF : MessageType → Bool
  | .Hello a b => strWF a && strWF b
  | .HelloAck => true
  | .FileOffer tid md sid sn => strWF tid && metaWF md && strWF sid && strWF sn
  | .FileAccept tid => strWF tid
  | .FileReject tid r => strWF tid && strWF r
  | .ChunkData tid idx data h =>
      strWF tid && decide (idx < 2 ^ 32) && strWF data && strWF h
  | .ChunkAck tid idx => strWF tid && decide (idx < 2 ^ 32)
  | .ResumeRequest tid idx => strWF tid && decide (idx < 2 ^ 32)
  | .TransferPause tid => strWF tid
  | .TransferResume tid => strWF tid
  | .TransferCancel tid => strWF tid
  | .TransferComplete tid => strWF tid
  | .TransferCompleteAck tid => strWF tid
  | .TransferError tid msg => strWF tid && strWF msg
  | .PairRequest di dn pc => strWF di && strWF dn && strWF pc
  | .PairResponse _ di => strWF di
  | .HistorySync recs => listWF recordWF recs
  | .SyncRequest fp files => strWF fp && listWF metaWF files
  | .SyncResponse mf => listWF strWF mf

/-- Length of the little-endian encoding. -/
theorem leBytes_length (w n : Nat) : (leBytes w n).length = w := by
  induction w generalizing n with
  | zero => rfl
  | succ w ih => simp [leBytes, ih]

/-- Decoding inverts the little-endian encoding of an in-range value. -/
theorem leVal_leBytes (w n : Nat) (h : n < 256 ^ w) :
    leVal (leBytes w n) = n := by
  induction w generalizing n with
  | zero => simp [leBytes, leVal]; omega
  | succ w ih =>
    have hdiv : n / 256 < 256 ^ w := by
      rw [Nat.div_lt_iff_lt_mul (by norm_num)]
      calc n < 256 ^ (w + 1) := h
        _ = 256 ^ w * 256 := by ring
    simp [leBytes, leVal] at *
    rw [ih _ hdiv]
    omega

/-- Reading exactly the length of the first summand of an append. -/
theorem readN_append (l r : List Nat) : readN l.length (l ++ r) = some (l, r) := by
  simp [readN]

/-- Reading `n` bytes from an append whose head has length `n`. -/
theorem readN_append_of_length (n : Nat) (l r : List Nat) (h : l.length = n) :
    readN n (l ++ r) = some (l, r) := by
  subst h; exact readN_append l r

theorem readU32_append (n : Nat) (r : List Nat) (h : n < 2 ^ 32) :
    readU32 (serU32 n ++ r) = some (n, r) := by
  unfold readU32 serU32
  rw [readN_append_of_length 4 _ _ (leBytes_length 4 n)]
  simp [leVal_leBytes 4 n (by norm_num at h ⊢; omega)]

theorem readU64_append (n : Nat) (r : List Nat) (h : n < 2 ^ 64) :
    readU64 (serU64 n ++ r) = some (n, r) := by
  unfold readU64 serU64
  rw [readN_append_of_length 8 _ _ (leBytes_length 8 n)]
  simp [leVal_leBytes 8 n (by norm_num at h ⊢; omega)]

theorem readI64_append (n : Int) (r : List Nat) (h : i64WF n = true) :
    readI64 (serI64 n ++ r) = some (n, r) := by
  simp only [i64WF, decide_eq_true_eq] at h
  unfold readI64 serI64
  have h0 : (0 : Int) ≤ n % 2 ^ 64 := Int.emod_nonneg n (by norm_num)
  have h1 : n % 2 ^ 64 < 2 ^ 64 := Int.emod_lt_of_pos n (by norm_num)
  have hlt : (n % 2 ^ 64).toNat < 2 ^ 64 := by omega
  have hu := readU64_append (n % 2 ^ 64).toNat r hlt
  unfold serU64 at hu
  rw [hu]
  simp only [Option.map_some']
  have hval : ∀ m : Nat, (m : Int) = n % 2 ^ 64 →
      (if m < 2 ^ 63 then (m : Int) else (m : Int) - 2 ^ 64) = n := by
    intro m hm
    rcases le_or_lt 0 n with hn | hn
    · have : n % 2 ^ 64 = n := Int.emod_eq_of_lt hn (by omega)
      rw [if_pos (by omega)]
      omega
    · have : n % 2 ^ 64 = n + 2 ^ 64 := by omega
      rw [if_neg (by omega)]
      omega
  rw [hval _ (Int.toNat_of_nonneg h0)]

theorem readBool_append (b : Bool) (r : List Nat) :
    readBool (serBool b ++ r) = some (b, r) := by
  cases b <;> simp [readBool, serBool]

theorem readStr_append (s : RStr) (r : List Nat) (h : strWF s = true) :
    readStr (serStr s ++ r) = some (s, r) := by
  simp only [strWF, decide_eq_true_eq] at h
  unfold readStr serStr
  rw [List.append_assoc, readU64_append _ _ h]
  exact readN_append s r

theorem readOptStr_append (o : Option RStr) (r : List Nat)
    (h : optStrWF o = true) :
    readOptStr (serOptStr o ++ r) = some (o, r) := by
  cases o with
  | none => simp [readOptStr, serOptStr]
  | some s =>
    simp only [optStrWF] at h
    simp [readOptStr, serOptStr, readStr_append s r h]


theorem readList_append (p : Parser α) (f : α → List Nat) (l : List α)
    (r : List Nat)
    (helem : ∀ a ∈ l, ∀ r2 : List Nat, p (f a ++ r2) = some (a, r2)) :
    readList p l.length ((l.map f).flatten ++ r) = some (l, r) := by
  induction l with
  | nil => simp [readList]
  | cons a l ih =>
    simp only [List.map_cons, List.flatten_cons, List.length_cons,
      List.append_assoc, readList, helem a (by simp),
      ih (fun a ha r2 => helem a (by simp [ha]) r2)]

theorem readVec_append (p : Parser α) (f : α → List Nat) (l : List α)
    (r : List Nat) (hlen : l.length < 2 ^ 64)
    (helem : ∀ a ∈ l, ∀ r2 : List Nat, p (f a ++ r2) = some (a, r2)) :
    readVec p (serVec f l ++ r) = some (l, r) := by
  unfold readVec serVec
  simp only [List.append_assoc, readU64_append _ _ hlen,
    readList_append p f l r helem]

theorem readMeta_append (m : FileMetadata) (r : List Nat)
    (h : metaWF m = true) :
    readMeta (serMeta m ++ r) = some (m, r) := by
  simp only [metaWF, Bool.and_eq_true, decide_eq_true_eq] at h
  obtain ⟨⟨⟨hn, hs⟩, hh⟩, hc⟩ := h
  unfold readMeta serMeta
  simp only [List.append_assoc, readStr_append _ _ hn, readU64_append _ _ hs,
    readStr_append _ _ hh, readU32_append _ _ hc]

theorem readRecord_append (rec : TransferRecord) (r : List Nat)
    (h : recordWF rec = true) :
    readRecord (serRecord rec ++ r) = some (rec, r) := by
  simp only [recordWF, Bool.and_eq_true] at h
  obtain ⟨⟨⟨⟨⟨⟨⟨⟨⟨⟨⟨h1, h2⟩, h3⟩, h4⟩, h5⟩, h6⟩, h7⟩, h8⟩, h9⟩, h10⟩,
    h11⟩, h12⟩ := h
  unfold readRecord serRecord
  simp only [List.append_assoc, readStr_append _ _ h1, readStr_append _ _ h2,
    readOptStr_append _ _ h3, readStr_append _ _ h4, readStr_append _ _ h5,
    readI64_append _ _ h6, readStr_append _ _ h7, readStr_append _ _ h8,
    readI64_append _ _ h9, readStr_append _ _ h10, readI64_append _ _ h11,
    readI64_append _ _ h12]

/-- Bincode deserialization inverts serialization for every well-formed
message, leaving trailing bytes untouched. -/
theorem readMessageBody_ser (m : MessageType) (r : List Nat)
    (h : msgWF m = true) :
    readMessageBody (serMessage m ++ r) = some (m, r) := by
  cases m with
  | Hello a b =>
    simp only [msgWF, Bool.and_eq_true] at h
    unfold serMessage readMessageBody
    simp [List.append_assoc, readU32_append 0 _ (by norm_num),
      readStr_append _ _ h.1, readStr_append _ _ h.2, reduceIte,
      Option.map_some']
  | HelloAck =>
    unfold serMessage readMessageBody
    simp [readU32_append 1 _ (by norm_num), reduceIte]
  | FileOffer tid md sid sn =>
    simp only [msgWF, Bool.and_eq_true] at h
    obtain ⟨⟨⟨h1, h2⟩, h3⟩, h4⟩ := h
    unfold serMessage readMessageBody
    simp [List.append_assoc, readU32_append 2 _ (by norm_num),
      readStr_append _ _ h1, readMeta_append _ _ h2, readStr_append _ _ h3,
      readStr_append _ _ h4, reduceIte, Option.map_some']
  | FileAccept tid =>
    unfold serMessage readMessageBody
    simp [List.append_assoc, readU32_append 3 _ (by norm_num),
      readStr_append _ _ h, reduceIte, Option.map_some']
  | FileReject tid reason =>
    simp only [msgWF, Bool.and_eq_true] at h
    unfold serMessage readMessageBody
    simp [List.append_assoc, readU32_append 4 _ (by norm_num),
      readStr_append _ _ h.1, readStr_append _ _ h.2, reduceIte,
      Option.map_some']
  | ChunkData tid idx data hh =>
    simp only [msgWF, Bool.and_eq_true, decide_eq_true_eq] at h
    obtain ⟨⟨⟨h1, h2⟩, h3⟩, h4⟩ := h
    unfold serMessage readMessageBody
    simp [List.append_assoc, readU32_append 5 _ (by norm_num),
      readStr_append _ _ h1, readU32_append _ _ h2, readStr_append _ _ h3,
      readStr_append _ _ h4, reduceIte, Option.map_some']
  | ChunkAck tid idx =>
    simp only [msgWF, Bool.and_eq_true, decide_eq_true_eq] at h
    unfold serMessage readMessageBody
    simp [List.append_assoc, readU32_append 6 _ (by norm_num),
      readStr_append _ _ h.1, readU32_append _ _ h.2, reduceIte,
      Option.map_some']
  | ResumeRequest tid idx =>
    simp only [msgWF, Bool.and_eq_true, decide_eq_true_eq] at h
    unfold serMessage readMessageBody
    simp [List.append_assoc, readU32_append 7 _ (by norm_num),
      readStr_append _ _ h.1, readU32_append _ _ h.2, reduceIte,
      Option.map_some']
  | TransferPause tid =>
    unfold serMessage readMessageBody
    simp [List.append_assoc, readU32_append 8 _ (by norm_num),
      readStr_append _ _ h, reduceIte, Option.map_some']
  | TransferResume tid =>
    unfold serMessage readMessageBody
    simp [List.append_assoc, readU32_append 9 _ (by norm_num),
      readStr_append _ _ h, reduceIte, Option.map_some']
  | TransferCancel tid =>
    unfold serMessage readMessageBody
    simp [List.append_assoc, readU32_append 10 _ (by norm_num),
      readStr_append _ _ h, reduceIte, Option.map_some']
  | TransferComplete tid =>
    unfold serMessage readMessageBody
    simp [List.append_assoc, readU32_append 11 _ (by norm_num),
      readStr_append _ _ h, reduceIte, Option.map_some']
  | TransferCompleteAck tid =>
    unfold serMessage readMessageBody
    simp [List.append_assoc, readU32_append 12 _ (by norm_num),
      readStr_append _ _ h, reduceIte, Option.map_some']
  | TransferError tid msg =>
    simp only [msgWF, Bool.and_eq_true] at h
    unfold serMessage readMessageBody
    simp [List.append_assoc, readU32_append 13 _ (by norm_num),
      readStr_append _ _ h.1, readStr_append _ _ h.2, reduceIte,
      Option.map_some']
  | PairRequest di dn pc =>
    simp only [msgWF, Bool.and_eq_true] at h
    obtain ⟨⟨h1, h2⟩, h3⟩ := h
    unfold serMessage readMessageBody
    simp [List.append_assoc, readU32_append 14 _ (by norm_num),
      readStr_append _ _ h1, readStr_append _ _ h2, readStr_append _ _ h3,
      reduceIte, Option.map_some']
  | PairResponse acc di =>
    unfold serMessage readMessageBody
    simp [List.append_assoc, readU32_append 15 _ (by norm_num),
      readBool_append, readStr_append _ _ h, reduceIte, Option.map_some']
  | HistorySync recs =>
    simp only [msgWF, listWF, Bool.and_eq_true, decide_eq_true_eq,
      List.all_eq_true] at h
    unfold serMessage readMessageBody
    simp [List.append_assoc, readU32_append 16 _ (by norm_num),
      readVec_append readRecord serRecord recs r h.1
        (fun a ha r2 => readRecord_append a r2 (h.2 a ha)),
      reduceIte, Option.map_some']
  | SyncRequest fp files =>
    simp only [msgWF, listWF, Bool.and_eq_true, decide_eq_true_eq,
      List.all_eq_true] at h
    obtain ⟨h1, h2, h3⟩ := h
    unfold serMessage readMessageBody
    simp [List.append_assoc, readU32_append 17 _ (by norm_num),
      readStr_append _ _ h1,
      readVec_append readMeta serMeta files r h2
        (fun a ha r2 => readMeta_append a r2 (h3 a ha)),
      reduceIte, Option.map_some']
  | SyncResponse mf =>
    simp only [msgWF, listWF, Bool.and_eq_true, decide_eq_true_eq,
      List.all_eq_true] at h
    unfold serMessage readMessageBody
    simp [List.append_assoc, readU32_append 18 _ (by norm_num),
      readVec_append readStr serStr mf r h.1
        (fun a ha r2 => readStr_append a r2 (h.2 a ha)),
      reduceIte, Option.map_some']

/-- Little-endian decoding of `leBytes` without range hypothesis. -/
theorem leVal_leBytes_mod (w n : Nat) : leVal (leBytes w n) = n % 256 ^ w := by
  induction w generalizing n with
  | zero => simp [leBytes, leVal, Nat.mod_one]
  | succ w ih =>
    simp only [leBytes, leVal, List.foldr_cons] at *
    rw [ih]
    rw [pow_succ, mul_comm (256 ^ w) 256, Nat.mod_mul]

/-- Big-endian reading inverts the big-endian 4-byte encoding modulo
`2 ^ 32`. -/
theorem beVal_beBytes32 (n : Nat) : beVal (beBytes32 n) = n % 2 ^ 32 := by
  have hrev : ∀ l : List Nat,
      List.foldr (fun a acc => acc * 256 + a) 0 l = leVal l := by
    intro l
    induction l with
    | nil => rfl
    | cons b l ih => simp [leVal] at *; rw [ih]; ring
  unfold beVal beBytes32
  rw [List.foldl_reverse, hrev, leVal_leBytes_mod]
  norm_num

theorem beBytes32_length (n : Nat) : (beBytes32 n).length = 4 := by
  simp [beBytes32, leBytes_length]

/-- C5 (corrected). Framed codec round-trip: for every well-formed
message whose bincode payload is shorter than `2 ^ 32` bytes, encoding
with `write_message` and decoding the resulting byte stream with
`read_message` yields the message again.  (The bound is forced by the
`data.len() as u32` truncation in `write_message`; see the
counterexample.) -/
theorem c5_framed_codec_roundtrip (m : MessageType) (hwf : msgWF m = true)
    (hlen : (serMessage m).length < 2 ^ 32) :
    read_message (write_message m) = some m := by
  have hpay : readN (serMessage m).length (serMessage m) =
      some (serMessage m, []) := by
    have := readN_append (serMessage m) []
    simpa using this
  have hbody := readMessageBody_ser m [] hwf
  simp only [List.append_nil] at hbody
  rw [write_message, read_message]
  rw [readN_append_of_length 4 _ _ (beBytes32_length _)]
  simp only [Option.some_bind, beVal_beBytes32, Nat.mod_eq_of_lt hlen,
    hpay, bincodeDeserialize, hbody, Option.map_some']

/-- Witness for C5: a concrete `ChunkData` message with a payload, shown
to satisfy both hypotheses and to round-trip. -/
theorem c5_framed_codec_roundtrip_witness :
    msgWF (.ChunkData [7] 0 [1, 2, 3] [9]) = true ∧
    (serMessage (.ChunkData [7] 0 [1, 2, 3] [9])).length < 2 ^ 32 ∧
    read_message (write_message (.ChunkData [7] 0 [1, 2, 3] [9])) =
      some (.ChunkData [7] 0 [1, 2, 3] [9]) :=
  ⟨by decide, by decide,
   c5_framed_codec_roundtrip _ (by decide) (by decide)⟩

/-- A `ChunkData` whose `data` vector holds `2 ^ 32` bytes; its bincode
payload is `2 ^ 32 + 32` bytes long, so `data.len() as u32` in
`write_message` truncates the frame length to 32. -/
def bigMsg : MessageType := .ChunkData [] 0 (List.replicate (2 ^ 32) 0) []

theorem serMessage_bigMsg : serMessage bigMsg =
    ([5, 0, 0, 0] ++ [0, 0, 0, 0, 0, 0, 0, 0] ++ [0, 0, 0, 0] ++
     [0, 0, 0, 0, 1, 0, 0, 0]) ++
    (List.replicate (2 ^ 32) 0 ++ [0, 0, 0, 0, 0, 0, 0, 0]) := by
  have hstep : serMessage bigMsg = serU32 5 ++ serStr [] ++ serU32 0 ++
      serStr (List.replicate (2 ^ 32) 0) ++ serStr [] := rfl
  have hmid : serStr (List.replicate (2 ^ 32) (0 : Nat)) =
      serU64 (2 ^ 32) ++ List.replicate (2 ^ 32) 0 := by
    rw [serStr, List.length_replicate]
  have h1 : serU32 5 = [5, 0, 0, 0] := by decide
  have h2 : serStr [] = [0, 0, 0, 0, 0, 0, 0, 0] := by decide
  have h3 : serU32 0 = [0, 0, 0, 0] := by decide
  have h4 : serU64 (2 ^ 32) = [0, 0, 0, 0, 1, 0, 0, 0] := by decide
  rw [hstep, hmid, h1, h2, h3, h4]
  simp only [List.append_assoc]

theorem serMessage_bigMsg_length :
    (serMessage bigMsg).length = 2 ^ 32 + 32 := by
  rw [serMessage_bigMsg]
  rw [List.length_append, List.length_append, List.length_append,
      List.length_append, List.length_append, List.length_replicate]
  have e1 : ([5, 0, 0, 0] : List Nat).length = 4 := rfl
  have e2 : ([0, 0, 0, 0, 0, 0, 0, 0] : List Nat).length = 8 := rfl
  have e3 : ([0, 0, 0, 0] : List Nat).length = 4 := rfl
  have e4 : ([0, 0, 0, 0, 1, 0, 0, 0] : List Nat).length = 8 := rfl
  rw [e1, e2, e3, e4]
  norm_num

/-- First 32 bytes of the bincode payload of `bigMsg`: variant tag 5,
empty `transfer_id`, `chunk_index` 0, the 8-byte length prefix of
`data` (value `2 ^ 32`), and the first 8 data bytes. -/
def bigMsgHead : List Nat :=
  [5, 0, 0, 0, 0, 0, 0, 0, 0, 0, 0, 0, 0, 0, 0, 0,
   0, 0, 0, 0, 1, 0, 0, 0, 0, 0, 0, 0, 0, 0, 0, 0]

theorem serMessage_bigMsg_split : serMessage bigMsg =
    bigMsgHead ++
    (List.replicate (2 ^ 32 - 8) 0 ++ [0, 0, 0, 0, 0, 0, 0, 0]) := by
  rw [serMessage_bigMsg]
  rw [show (2 ^ 32 : Nat) = 8 + (2 ^ 32 - 8) by norm_num,
    List.replicate_add]
  simp only [List.append_assoc]
  rfl

/-- C5 counterexample: the claim as stated (every `MessageType` value
round-trips through the framed codec) fails at `bigMsg`, a `ChunkData`
with a `2 ^ 32`-byte payload: the `u32` length prefix wraps to 32, so
`read_message` reads a 32-byte payload that ends inside the contents
announced by the `data` length field, and deserialization fails. -/
theorem c5_framed_codec_counterexample :
    read_message (write_message bigMsg) ≠ some bigMsg := by
  have hbe : beVal (beBytes32 (serMessage bigMsg).length) = 32 := by
    rw [beVal_beBytes32, serMessage_bigMsg_length]; norm_num
  have hN4 : readN 4 (beBytes32 (serMessage bigMsg).length ++ serMessage bigMsg)
      = some (beBytes32 (serMessage bigMsg).length, serMessage bigMsg) :=
    readN_append_of_length 4 _ _ (beBytes32_length _)
  have hN32 : readN 32 (serMessage bigMsg) =
      some (bigMsgHead,
        List.replicate (2 ^ 32 - 8) 0 ++ [0, 0, 0, 0, 0, 0, 0, 0]) := by
    rw [serMessage_bigMsg_split]
    exact readN_append_of_length 32 _ _ (by decide)
  have hbad : bincodeDeserialize bigMsgHead = none := by decide
  rw [read_message, write_message]
  rw [hN4, Option.some_bind]
  rw [hbe, hN32, Option.some_bind]
  rw [hbad]
  exact fun hx => Option.noConfusion hx

/-!
Sender state machine: `FileSender::send_file` (`sender.rs`).

The registry is modelled by its observed values: `sched t` is the
`TransferStatus` the t-th registry read returns (the source reads
`registry.get(&transfer_id).cloned().unwrap_or(InProgress)`, so a
missing entry is already folded into the observation).  The file is the
list of its bytes; each `file.read` returns the next
`min chunk_size remaining` bytes (full reads, as the chunking rule in
the source assumes).  Stream writes always succeed (the source ignores
errors of control-message writes and the claims under study do not
involve transport failures).  The pause wait-loop can run forever, so
the loop takes fuel and returns `none` on exhaustion.
-/

/-- Result of `send_file` as an error class. -/
inductive SenderResult where
  | ok
  | cancelled
  | ackTimeout
  | protocolErr
  | recvErr
deriving DecidableEq, Repr

/-- One read attempt in the completion-ack window: either a message
arrives (after `delay` seconds) or the underlying read fails. -/
inductive ArrOut where
  | deliver (m : MessageType)
  | readErr
deriving DecidableEq, Repr

/-- Inner pause wait-loop of the chunk loop (`sender.rs` lines 173-204):
`while status == Paused { sleep 500ms; re-read; on Cancelled send
TransferCancel and fail; on InProgress send TransferResume and set
last_status }`.  Returns the emitted actions, whether the transfer was
cancelled, the next registry-observation index and the updated
`last_status`. -/
def pauseWait (tid : RStr) (sched : Nat → TStatus) (fuel : Nat)
    (status : TStatus) (t : Nat) (lastSt : TStatus) :
    Option (List Action × Bool × Nat × TStatus) :=
  if status ≠ .paused then some ([], false, t, lastSt)
  else match fuel with
    | 0 => none
    | fuel + 1 =>
      let s1 := sched t
      if s1 = .cancelled then
        some ([.sendMsg (.TransferCancel tid)], true, t + 1, lastSt)
      else if s1 = .inProgress then
        match pauseWait tid sched fuel s1 (t + 1) .inProgress with
        | none => none
        | some (as, c, t2, l2) =>
          some (.sendMsg (.TransferResume tid) :: as, c, t2, l2)
      else
        pauseWait tid sched fuel s1 (t + 1) lastSt

/-- Chunk loop of `send_file` (`sender.rs` lines 120-242): at each
iteration read the registry (cancel / pause / resume notifications),
then read up to `c` bytes from the file; on a zero-byte read mark the
registry entry `Completed` and stop.  Returns the emitted actions, a
flag (`true` = reached end of file, `false` = cancelled) and the next
registry-observation index. -/
def senderLoop (h : List Nat → RStr) (c : Nat) (tid : RStr)
    (sched : Nat → TStatus) (total : Nat) :
    Nat → Nat → List Nat → Nat → Nat → TStatus →
    Option (List Action × Bool × Nat)
  | 0, _, _, _, _, _ => none
  | fuel + 1, t, rest, idx, sent, lastSt =>
    let status := sched t
    if status ≠ lastSt ∧ status = .cancelled then
      some ([.sendMsg (.TransferCancel tid)], false, t + 1)
    else
      let notifyActs : List Action :=
        if status ≠ lastSt then
          match status with
          | .paused => [.sendMsg (.TransferPause tid)]
          | .inProgress =>
            if lastSt = .paused then [.sendMsg (.TransferResume tid)] else []
          | _ => []
        else []
      let last1 := if status ≠ lastSt then status else lastSt
      match pauseWait tid sched fuel status (t + 1) last1 with
      | none => none
      | some (pActs, true, t2, _) => some (notifyActs ++ pActs, false, t2)
      | some (pActs, false, t2, last2) =>
        let n := min c rest.length
        if n = 0 then
          some (notifyActs ++ pActs ++ [.regWrite tid .completed], true, t2)
        else
          let chunk := rest.take n
          match senderLoop h c tid sched total fuel t2 (rest.drop n)
              (idx + 1) (sent + n) last2 with
          | none => none
          | some (as, flag, t3) =>
            some (notifyActs ++ pActs ++
              (.sendMsg (.ChunkData tid (idx % 2 ^ 32) chunk (h chunk)) ::
               .progressEvt tid (sent + n) total true :: as), flag, t3)

/-- History-database writes performed for one synced record
(`db.record_transfer` then `db.update_transfer_status`). -/
def recActions (r : TransferRecord) : List Action :=
  [.dbRecord r.id r.deviceId r.fileName r.filePath r.totalSize
     r.direction r.fileHash,
   .dbUpdateStatus r.id r.status r.bytesTransferred]

/-- Completion-ack wait loop of `send_file` (`sender.rs` lines 256-313):
each iteration arms a fresh 30-second `tokio::time::timeout` around
`read_message`.  A matching `TransferCompleteAck` succeeds; a
`HistorySync` is forwarded to the history database (when one is open)
followed by a `history-updated` event, and the loop continues; any
other message is a protocol error; a read error fails; a timeout (the
next message taking 30 s or more, or the stream yielding nothing
further) fails with the ack-timeout error. -/
def ackWait (tid : RStr) (dbp : Bool) :
    List (Nat × ArrOut) → List Action × SenderResult
  | [] => ([], .ackTimeout)
  | (d, a) :: rest =>
    if 30 ≤ d then ([], .ackTimeout)
    else match a with
      | .deliver (.TransferCompleteAck ackId) =>
        if ackId = tid then ([], .ok) else ([], .protocolErr)
      | .deliver (.HistorySync recs) =>
        let acts := (if dbp then (recs.map recActions).flatten else []) ++
          [Action.historyUpdated]
        let rec2 := ackWait tid dbp rest
        (acts ++ rec2.1, rec2.2)
      | .deliver _ => ([], .protocolErr)
      | .readErr => ([], .recvErr)

/-- Whole `send_file` run (`sender.rs` lines 81-332): compute the file
hash and chunk size, emit the `FileOffer`, run the chunk loop, and on
end of file emit `TransferComplete`, close the outbound half and wait
for the acknowledgment; on success emit the final progress and
history-updated events. -/
def sendFile (h : List Nat → RStr) (fuel : Nat) (tid fname : RStr)
    (content : List Nat) (sched : Nat → TStatus)
    (arrivals : List (Nat × ArrOut)) (dbp : Bool) (dvId dvName : RStr) :
    Option (List Action × SenderResult) :=
  let total := content.length
  let c := calculate_chunk_size total
  let offer : Action := .sendMsg (.FileOffer tid
    ⟨fname, total, h content, c % 2 ^ 32⟩ dvId dvName)
  match senderLoop h c tid sched total fuel 0 content 0 0 .inProgress with
  | none => none
  | some (acts, false, _) => some (offer :: acts, .cancelled)
  | some (acts, true, _) =>
    let ack := ackWait tid dbp arrivals
    let post : List Action := if ack.2 = .ok then
        [.progressEvt tid total total true, .historyUpdated] else []
    some (offer :: acts ++ .sendMsg (.TransferComplete tid) :: ack.1 ++ post,
      ack.2)

/-!
Chunking discipline (claim C1).  Under a registry that stays
`InProgress`, the chunk loop reduces to a pure chunk-emission schedule;
`chunkActs` is that schedule and `chunkList` the `(index, length)`
projection of its `ChunkData` messages.
-/

/-- Project a `ChunkData` send action to its `(chunk_index, payload
length)` pair. -/
def chunkMsgOf : Action → Option (Nat × Nat)
  | .sendMsg (.ChunkData _ i d _) => some (i, d.length)
  | _ => none

/-- Actions of the chunk loop when every registry read returns
`InProgress`. -/
def chunkActs (h : List Nat → RStr) (c : Nat) (tid : RStr) (total : Nat) :
    List Nat → Nat → Nat → List Action
  | rest, idx, sent =>
    if hn : min c rest.length = 0 then [.regWrite tid .completed]
    else
      let n := min c rest.length
      .sendMsg (.ChunkData tid (idx % 2 ^ 32) (rest.take n) (h (rest.take n))) ::
      .progressEvt tid (sent + n) total true ::
      chunkActs h c tid total (rest.drop n) (idx + 1) (sent + n)
  termination_by rest _ _ => rest.length
  decreasing_by
    simp only [List.length_drop]
    omega

/-- The `(index, length)` schedule of the chunk loop. -/
def chunkList (c : Nat) : List Nat → Nat → List (Nat × Nat)
  | rest, idx =>
    if hn : min c rest.length = 0 then []
    else (idx % 2 ^ 32, min c rest.length) ::
      chunkList c (rest.drop (min c rest.length)) (idx + 1)
  termination_by rest _ => rest.length
  decreasing_by
    simp only [List.length_drop]
    omega

theorem numChunks_zero (c : Nat) : numChunks c 0 = 0 := by
  unfold numChunks
  split
  · rfl
  · exact Nat.div_eq_of_lt (by omega)

theorem numChunks_step (c rem : Nat) (hc : 0 < c) (hr : 0 < rem) :
    numChunks c rem = numChunks c (rem - min c rem) + 1 := by
  unfold numChunks
  rw [if_neg (by omega), if_neg (by omega)]
  rcases le_or_lt rem c with hle | hlt
  · have h1 : min c rem = rem := by omega
    rw [h1, Nat.sub_self]
    have h2 : (0 + c - 1) / c = 0 := Nat.div_eq_of_lt (by omega)
    rw [h2]
    exact Nat.div_eq_of_lt_le (by omega) (by omega)
  · have h1 : min c rem = c := by omega
    rw [h1]
    have e1 : rem + c - 1 = (rem - 1 - c) + c + c := by omega
    have e2 : rem - c + c - 1 = (rem - 1 - c) + c := by omega
    rw [e1, e2, Nat.add_div_right _ hc, Nat.add_div_right _ hc]

theorem le_numChunks_mul (c : Nat) (hc : 0 < c) :
    ∀ rem, rem ≤ numChunks c rem * c := by
  intro rem
  induction rem using Nat.strong_induction_on with
  | _ rem ih =>
    rcases Nat.eq_zero_or_pos rem with h0 | hpos
    · subst h0; simp [numChunks_zero]
    · rw [numChunks_step c rem hc hpos]
      have hlt : rem - min c rem < rem := by omega
      have := ih (rem - min c rem) hlt
      have hmin : min c rem ≤ c := Nat.min_le_left _ _
      calc rem = (rem - min c rem) + min c rem := by omega
        _ ≤ numChunks c (rem - min c rem) * c + c := by omega
        _ = (numChunks c (rem - min c rem) + 1) * c := by ring

/-- Full characterization of the chunk schedule: `⌈rem/c⌉` chunks, the
i-th carrying index `(idx + i) % 2 ^ 32` and `min c (rem - i·c)`
bytes. -/
theorem chunkList_eq (c : Nat) (hc : 0 < c) :
    ∀ n (rest : List Nat), rest.length = n → ∀ idx,
      chunkList c rest idx =
        (List.range (numChunks c rest.length)).map
          (fun i => ((idx + i) % 2 ^ 32, min c (rest.length - i * c))) := by
  intro n
  induction n using Nat.strong_induction_on with
  | _ n ih =>
    intro rest hlen idx
    rw [chunkList]
    rcases Nat.eq_zero_or_pos (min c rest.length) with h0 | hpos
    · rw [dif_pos h0]
      have hr0 : rest.length = 0 := by omega
      rw [hr0, numChunks_zero]
      simp
    · rw [dif_neg (by omega)]
      have hr : 0 < rest.length := by omega
      rw [numChunks_step c rest.length hc hr]
      rw [List.range_succ_eq_map, List.map_cons]
      have hdl : (rest.drop (min c rest.length)).length =
          rest.length - min c rest.length := by
        simp [List.length_drop]
      have htl := ih (rest.drop (min c rest.length)).length
        (by omega) (rest.drop (min c rest.length)) rfl (idx + 1)
      rw [hdl] at htl
      rw [htl]
      congr 1
      · simp
      · rw [List.map_map]
        apply List.map_congr_left
        intro i hi
        simp only [Function.comp_apply, Nat.succ_eq_add_one, Prod.mk.injEq]
        refine ⟨by congr 1; omega, ?_⟩
        congr 1
        rcases le_or_lt rest.length c with hle | hlt
        · have hm : min c rest.length = rest.length := by omega
          rw [hm, Nat.sub_self, numChunks_zero] at hi
          simp at hi
        · have hm : min c rest.length = c := by omega
          rw [hm]
          have hic : (i + 1) * c = i * c + c := by ring
          rw [hic]
          omega

theorem chunkList_sum (c : Nat) (hc : 0 < c) :
    ∀ n (rest : List Nat), rest.length = n → ∀ idx,
      ((chunkList c rest idx).map Prod.snd).sum = rest.length := by
  intro n
  induction n using Nat.strong_induction_on with
  | _ n ih =>
    intro rest hlen idx
    rw [chunkList]
    rcases Nat.eq_zero_or_pos (min c rest.length) with h0 | hpos
    · rw [dif_pos h0]
      simp
      omega
    · rw [dif_neg (by omega)]
      have hdl : (rest.drop (min c rest.length)).length =
          rest.length - min c rest.length := by
        simp [List.length_drop]
      have htl := ih (rest.drop (min c rest.length)).length
        (by omega) (rest.drop (min c rest.length)) rfl (idx + 1)
      rw [List.map_cons, List.sum_cons, htl, hdl]
      omega

theorem chunkActs_filterMap (h : List Nat → RStr) (c : Nat) (tid : RStr)
    (total : Nat) :
    ∀ n (rest : List Nat), rest.length = n → ∀ idx sent,
      (chunkActs h c tid total rest idx sent).filterMap chunkMsgOf =
        chunkList c rest idx := by
  intro n
  induction n using Nat.strong_induction_on with
  | _ n ih =>
    intro rest hlen idx sent
    rw [chunkActs, chunkList]
    rcases Nat.eq_zero_or_pos (min c rest.length) with h0 | hpos
    · rw [dif_pos h0, dif_pos h0]
      simp [chunkMsgOf]
    · rw [dif_neg (by omega), dif_neg (by omega)]
      have htk : (rest.take (min c rest.length)).length = min c rest.length := by
        simp [List.length_take]
      have htl := ih (rest.drop (min c rest.length)).length
        (by simp [List.length_drop]; omega) (rest.drop (min c rest.length))
        rfl (idx + 1) (sent + min c rest.length)
      simp only [List.filterMap_cons, chunkMsgOf, htk, htl]

theorem ackWait_no_chunk (tid : RStr) (dbp : Bool) :
    ∀ arrivals, ((ackWait tid dbp arrivals).1).filterMap chunkMsgOf = [] := by
  intro arrivals
  induction arrivals with
  | nil => simp [ackWait]
  | cons a rest ih =>
    obtain ⟨d, m⟩ := a
    rw [ackWait.eq_def]
    simp only []
    split
    · simp
    · match m with
      | .readErr => simp
      | .deliver (.TransferCompleteAck ackId) =>
        simp only []
        split <;> simp
      | .deliver (.HistorySync recs) =>
        have h1 : ∀ rl : List TransferRecord,
            List.filterMap chunkMsgOf (List.map recActions rl).flatten = [] := by
          intro rl
          induction rl with
          | nil => simp
          | cons r rs ihr =>
            simp only [List.map_cons, List.flatten_cons,
              List.filterMap_append, ihr]
            simp [recActions, chunkMsgOf]
        simp only [List.filterMap_append, ih, List.append_nil]
        split
        · rw [h1]
          simp [chunkMsgOf]
        · simp [chunkMsgOf]
      | .deliver (.Hello a b) => simp
      | .deliver .HelloAck => simp
      | .deliver (.FileOffer a b e f) => simp
      | .deliver (.FileAccept a) => simp
      | .deliver (.FileReject a b) => simp
      | .deliver (.ChunkData a b e f) => simp
      | .deliver (.ChunkAck a b) => simp
      | .deliver (.ResumeRequest a b) => simp
      | .deliver (.TransferPause a) => simp
      | .deliver (.TransferResume a) => simp
      | .deliver (.TransferCancel a) => simp
      | .deliver (.TransferComplete a) => simp
      | .deliver (.TransferError a b) => simp
      | .deliver (.PairRequest a b e) => simp
      | .deliver (.PairResponse a b) => simp
      | .deliver (.SyncRequest a b) => simp
      | .deliver (.SyncResponse a) => simp

/-- Under a registry that always reads `InProgress`, the chunk loop
runs to end of file and emits exactly the `chunkActs` schedule, using
one registry observation per iteration. -/
theorem senderLoop_const (h : List Nat → RStr) (c : Nat) (tid : RStr)
    (total : Nat) :
    ∀ n (rest : List Nat), rest.length = n → ∀ fuel, n < fuel → ∀ t idx sent,
      senderLoop h c tid (fun _ => .inProgress) total fuel t rest idx sent
          .inProgress =
        some (chunkActs h c tid total rest idx sent, true,
          t + numChunks c rest.length + 1) := by
  intro n
  induction n using Nat.strong_induction_on with
  | _ n ih =>
    intro rest hlen fuel hfuel t idx sent
    obtain ⟨fuel1, rfl⟩ : ∃ f, fuel = f + 1 := ⟨fuel - 1, by omega⟩
    rw [senderLoop, chunkActs]
    have hpw : pauseWait tid (fun _ => .inProgress) fuel1 .inProgress (t + 1)
        .inProgress = some ([], false, t + 1, .inProgress) := by
      rw [pauseWait.eq_def]
      simp
    simp only [ne_eq, not_true_eq_false, false_and, if_false, reduceIte,
      ite_self, hpw]
    rcases Nat.eq_zero_or_pos (min c rest.length) with h0 | hpos
    · rw [dif_pos h0]
      have hr0 : numChunks c rest.length = 0 := by
        rcases Nat.eq_zero_or_pos c with hc0 | hcpos
        · unfold numChunks; rw [if_pos hc0]
        · have : rest.length = 0 := by omega
          rw [this, numChunks_zero]
      simp only [h0, reduceIte, hr0]
      simp
    · rw [dif_neg (by omega)]
      have hcpos : 0 < c := by omega
      have hdl : (rest.drop (min c rest.length)).length =
          rest.length - min c rest.length := by simp [List.length_drop]
      have hrec := ih (rest.drop (min c rest.length)).length
        (by omega) (rest.drop (min c rest.length)) rfl fuel1 (by omega)
        (t + 1) (idx + 1) (sent + min c rest.length)
      rw [hdl] at hrec
      simp only [if_neg (by omega : ¬ min c rest.length = 0), hrec]
      have hnum : t + 1 + numChunks c (rest.length - min c rest.length) + 1 =
          t + numChunks c rest.length + 1 := by
        rw [numChunks_step c rest.length hcpos (by omega)]
        omega
      simp only [hnum, List.nil_append]

/-- C1 (corrected).  Chunking discipline of `send_file` with an
undisturbed registry (every read returns `InProgress`): the chunk size
follows the 64 KiB / 1 MiB / 4 MiB rule, exactly `⌈s / chunk_size⌉`
`ChunkData` messages are emitted, in order, with chunk indices
`i % 2 ^ 32` (the source counter is a `u32`; the claimed indices
`0..N-1` hold exactly when `N ≤ 2 ^ 32`, see the counterexample),
their payload lengths sum to `s`, and for `s > 0` the last payload has
length `s - (N-1)·chunk_size`. -/
theorem c1_chunking_discipline
    (h : List Nat → RStr) (fuel : Nat) (tid fname : RStr)
    (content : List Nat) (arrivals : List (Nat × ArrOut)) (dbp : Bool)
    (dvId dvName : RStr) (acts : List Action) (res : SenderResult)
    (hfuel : content.length < fuel)
    (hrun : sendFile h fuel tid fname content (fun _ => .inProgress)
      arrivals dbp dvId dvName = some (acts, res)) :
    calculate_chunk_size content.length =
      (if content.length < 1048576 then 65536
       else if content.length < 104857600 then 1048576 else 4194304) ∧
    (acts.filterMap chunkMsgOf).length =
      (content.length + calculate_chunk_size content.length - 1) /
        calculate_chunk_size content.length ∧
    (acts.filterMap chunkMsgOf).map Prod.fst =
      (List.range (acts.filterMap chunkMsgOf).length).map
        (fun i => i % 2 ^ 32) ∧
    ((acts.filterMap chunkMsgOf).map Prod.snd).sum = content.length ∧
    (0 < content.length →
      (acts.filterMap chunkMsgOf).getLast? =
        some (((acts.filterMap chunkMsgOf).length - 1) % 2 ^ 32,
          content.length - ((acts.filterMap chunkMsgOf).length - 1) *
            calculate_chunk_size content.length)) := by
  have hc : 0 < calculate_chunk_size content.length :=
    calculate_chunk_size_pos _
  have hloop := senderLoop_const h (calculate_chunk_size content.length) tid
    content.length content.length content rfl fuel hfuel 0 0 0
  rw [sendFile] at hrun
  simp only [hloop] at hrun
  have hpair := Option.some.inj hrun
  have hacts : acts = .sendMsg (.FileOffer tid
      ⟨fname, content.length, h content,
        calculate_chunk_size content.length % 2 ^ 32⟩ dvId dvName) ::
      chunkActs h (calculate_chunk_size content.length) tid content.length
        content 0 0 ++
      .sendMsg (.TransferComplete tid) ::
      (ackWait tid dbp arrivals).1 ++
      (if (ackWait tid dbp arrivals).2 = .ok then
        [.progressEvt tid content.length content.length true,
         .historyUpdated] else []) := by
    have := congrArg Prod.fst hpair
    simp only [] at this
    exact this.symm
  have hpost : (List.filterMap chunkMsgOf
      (if (ackWait tid dbp arrivals).2 = .ok then
        [Action.progressEvt tid content.length content.length true,
         Action.historyUpdated] else [])) = [] := by
    split <;> simp [chunkMsgOf]
  have hmsgs : acts.filterMap chunkMsgOf =
      chunkList (calculate_chunk_size content.length) content 0 := by
    rw [hacts]
    simp only [List.filterMap_cons, List.filterMap_append, chunkMsgOf,
      ackWait_no_chunk, hpost, List.append_nil]
    exact chunkActs_filterMap h (calculate_chunk_size content.length) tid
      content.length content.length content rfl 0 0
  have hN : (acts.filterMap chunkMsgOf).length =
      numChunks (calculate_chunk_size content.length) content.length := by
    rw [hmsgs, chunkList_eq (calculate_chunk_size content.length) hc
      content.length content rfl 0]
    simp
  refine ⟨by norm_num [calculate_chunk_size], ?_, ?_, ?_, ?_⟩
  · rw [hN]
    unfold numChunks
    rw [if_neg (by omega)]
  · rw [hN, hmsgs, chunkList_eq (calculate_chunk_size content.length) hc
      content.length content rfl 0, List.map_map]
    apply List.map_congr_left
    intro i _
    simp
  · rw [hmsgs, chunkList_sum (calculate_chunk_size content.length) hc
      content.length content rfl 0]
  · intro hs
    rw [hN, hmsgs, chunkList_eq (calculate_chunk_size content.length) hc
      content.length content rfl 0]
    have hN1 : 0 < numChunks (calculate_chunk_size content.length)
        content.length := by
      rw [numChunks_step _ _ hc hs]
      omega
    rw [List.getLast?_eq_getElem?]
    have hlen : ((List.range (numChunks (calculate_chunk_size content.length)
        content.length)).map (fun i => ((0 + i) % 2 ^ 32,
          min (calculate_chunk_size content.length)
            (content.length - i * calculate_chunk_size content.length)))).length
        = numChunks (calculate_chunk_size content.length) content.length := by
      simp
    rw [hlen]
    rw [List.getElem?_map]
    rw [List.getElem?_range (by omega)]
    simp only [Option.map_some']
    have hle := le_numChunks_mul (calculate_chunk_size content.length) hc
      content.length
    have hmin : min (calculate_chunk_size content.length)
        (content.length - (numChunks (calculate_chunk_size content.length)
          content.length - 1) * calculate_chunk_size content.length) =
        content.length - (numChunks (calculate_chunk_size content.length)
          content.length - 1) * calculate_chunk_size content.length := by
      have hmul : numChunks (calculate_chunk_size content.length)
          content.length * calculate_chunk_size content.length =
          (numChunks (calculate_chunk_size content.length) content.length - 1) *
            calculate_chunk_size content.length +
            calculate_chunk_size content.length := by
        obtain ⟨M, hM⟩ : ∃ M, numChunks (calculate_chunk_size content.length)
            content.length = M + 1 :=
          ⟨numChunks (calculate_chunk_size content.length)
            content.length - 1, by omega⟩
        rw [hM]
        simp only [Nat.add_sub_cancel]
        ring
      omega
    rw [hmin]
    simp

/-- Action trace of the witness run for C1: a 3-byte file sent with an
undisturbed registry and an immediate matching ack. -/
def c1WitnessActs : List Action :=
  [.sendMsg (.FileOffer [1] ⟨[2], 3, [42], 65536⟩ [3] [4]),
   .sendMsg (.ChunkData [1] 0 [9, 8, 7] [42]),
   .progressEvt [1] 3 3 true,
   .regWrite [1] .completed,
   .sendMsg (.TransferComplete [1]),
   .progressEvt [1] 3 3 true,
   .historyUpdated]

/-- Witness for C1: the hypotheses hold on a concrete 3-byte transfer
(one 64 KiB-capped chunk), and the chunking discipline follows. -/
theorem c1_chunking_discipline_witness :
    sendFile (fun _ => [42]) 5 [1] [2] [9, 8, 7] (fun _ => .inProgress)
      [(0, .deliver (.TransferCompleteAck [1]))] true [3] [4] =
      some (c1WitnessActs, .ok) ∧
    (c1WitnessActs.filterMap chunkMsgOf).length = 1 ∧
    ((c1WitnessActs.filterMap chunkMsgOf).map Prod.snd).sum = 3 := by
  refine ⟨by decide, ?_, ?_⟩
  · have hw := c1_chunking_discipline (fun _ => [42]) 5 [1] [2] [9, 8, 7]
      [(0, .deliver (.TransferCompleteAck [1]))] true [3] [4]
      c1WitnessActs .ok (by norm_num) (by decide)
    have := hw.2.1
    simpa using this
  · have hw := c1_chunking_discipline (fun _ => [42]) 5 [1] [2] [9, 8, 7]
      [(0, .deliver (.TransferCompleteAck [1]))] true [3] [4]
      c1WitnessActs .ok (by norm_num) (by decide)
    simpa using hw.2.2.2.1

/-- Unfolding of `sendFile` when the chunk loop reaches end of file. -/
theorem sendFile_complete (h : List Nat → RStr) (fuel : Nat)
    (tid fname : RStr) (content : List Nat) (sched : Nat → TStatus)
    (arrivals : List (Nat × ArrOut)) (dbp : Bool) (dvId dvName : RStr)
    (acts : List Action) (t2 : Nat)
    (hl : senderLoop h (calculate_chunk_size content.length) tid sched
      content.length fuel 0 content 0 0 .inProgress = some (acts, true, t2)) :
    sendFile h fuel tid fname content sched arrivals dbp dvId dvName =
      some (.sendMsg (.FileOffer tid ⟨fname, content.length, h content,
          calculate_chunk_size content.length % 2 ^ 32⟩ dvId dvName) ::
        acts ++ .sendMsg (.TransferComplete tid) ::
          (ackWait tid dbp arrivals).1 ++
          (if (ackWait tid dbp arrivals).2 = .ok then
            [.progressEvt tid content.length content.length true,
             .historyUpdated] else []),
        (ackWait tid dbp arrivals).2) := by
  rw [sendFile, hl]

/-- Unfolding of `sendFile` when the chunk loop is cancelled. -/
theorem sendFile_cancelled (h : List Nat → RStr) (fuel : Nat)
    (tid fname : RStr) (content : List Nat) (sched : Nat → TStatus)
    (arrivals : List (Nat × ArrOut)) (dbp : Bool) (dvId dvName : RStr)
    (acts : List Action) (t2 : Nat)
    (hl : senderLoop h (calculate_chunk_size content.length) tid sched
      content.length fuel 0 content 0 0 .inProgress =
        some (acts, false, t2)) :
    sendFile h fuel tid fname content sched arrivals dbp dvId dvName =
      some (.sendMsg (.FileOffer tid ⟨fname, content.length, h content,
          calculate_chunk_size content.length % 2 ^ 32⟩ dvId dvName) :: acts,
        .cancelled) := by
  rw [sendFile, hl]

theorem chunkMsgOf_offer (a : RStr) (s : FileMetadata) (b c : RStr) :
    chunkMsgOf (.sendMsg (.FileOffer a s b c)) = none := rfl

theorem chunkMsgOf_complete (a : RStr) :
    chunkMsgOf (.sendMsg (.TransferComplete a)) = none := rfl

theorem filterMap_post (a : RStr) (b c : Nat) (d : Bool) :
    ([Action.progressEvt a b c d, Action.historyUpdated].filterMap
      chunkMsgOf) = [] := rfl

theorem filterMap_sendFile_shape (off cmp : Action)
    (mid tail1 : List Action) (p : Prop) [Decidable p] (l : List Action)
    (hoff : chunkMsgOf off = none) (hcmp : chunkMsgOf cmp = none)
    (h1 : tail1.filterMap chunkMsgOf = [])
    (hl : l.filterMap chunkMsgOf = []) :
    (off :: mid ++ cmp :: tail1 ++ (if p then l else [])).filterMap
        chunkMsgOf =
      mid.filterMap chunkMsgOf := by
  split <;>
    simp [List.filterMap_append, List.filterMap_cons, hoff, hcmp, h1, hl]

/-- Chunk-message projection of the counterexample run: `2 ^ 32 + 1`
chunks whose index field is `i % 2 ^ 32`. -/
theorem c1BigRunEq :
    (sendFile (fun _ => []) (2 ^ 22 * (2 ^ 32 + 1) + 1) [1] [2]
        (List.replicate (2 ^ 22 * (2 ^ 32 + 1)) 0) (fun _ => .inProgress)
        [] false [3] [4]).map
      (fun p => ((p.1.filterMap chunkMsgOf).map Prod.fst,
                 (p.1.filterMap chunkMsgOf).length)) =
      some ((List.range (2 ^ 32 + 1)).map (fun i => i % 2 ^ 32),
        2 ^ 32 + 1) := by
  have hlen : (List.replicate (2 ^ 22 * (2 ^ 32 + 1)) (0 : Nat)).length =
      2 ^ 22 * (2 ^ 32 + 1) := List.length_replicate _ _
  have hloop := senderLoop_const (fun _ => [])
    (calculate_chunk_size
      (List.replicate (2 ^ 22 * (2 ^ 32 + 1)) (0 : Nat)).length) [1]
    (List.replicate (2 ^ 22 * (2 ^ 32 + 1)) (0 : Nat)).length
    (List.replicate (2 ^ 22 * (2 ^ 32 + 1)) (0 : Nat)).length
    (List.replicate (2 ^ 22 * (2 ^ 32 + 1)) (0 : Nat)) rfl
    (2 ^ 22 * (2 ^ 32 + 1) + 1) (by rw [hlen]; omega) 0 0 0
  rw [sendFile_complete (fun _ => []) (2 ^ 22 * (2 ^ 32 + 1) + 1) [1] [2]
    (List.replicate (2 ^ 22 * (2 ^ 32 + 1)) 0) (fun _ => .inProgress)
    [] false [3] [4] _ _ hloop]
  simp only [Option.map_some', Option.some.injEq, Prod.mk.injEq]
  rw [filterMap_sendFile_shape _ _ _ _ _ _ (chunkMsgOf_offer _ _ _ _)
    (chunkMsgOf_complete _) (ackWait_no_chunk [1] false [])
    (filterMap_post _ _ _ _)]
  have hcl := chunkActs_filterMap (fun _ => [])
    (calculate_chunk_size
      (List.replicate (2 ^ 22 * (2 ^ 32 + 1)) (0 : Nat)).length) [1]
    (List.replicate (2 ^ 22 * (2 ^ 32 + 1)) (0 : Nat)).length
    (List.replicate (2 ^ 22 * (2 ^ 32 + 1)) (0 : Nat)).length
    (List.replicate (2 ^ 22 * (2 ^ 32 + 1)) (0 : Nat)) rfl 0 0
  rw [hcl]
  have hceq := chunkList_eq (calculate_chunk_size
      (List.replicate (2 ^ 22 * (2 ^ 32 + 1)) (0 : Nat)).length)
    (calculate_chunk_size_pos _)
    (List.replicate (2 ^ 22 * (2 ^ 32 + 1)) (0 : Nat)).length
    (List.replicate (2 ^ 22 * (2 ^ 32 + 1)) (0 : Nat)) rfl 0
  rw [hceq]
  have hcs : calculate_chunk_size
      (List.replicate (2 ^ 22 * (2 ^ 32 + 1)) (0 : Nat)).length = 2 ^ 22 := by
    rw [hlen]; decide
  rw [hcs, hlen]
  have hnc : numChunks (2 ^ 22) (2 ^ 22 * (2 ^ 32 + 1)) = 2 ^ 32 + 1 := by
    decide
  rw [hnc]
  constructor
  · rw [List.map_map]
    apply List.map_congr_left
    intro i _
    simp
  · rw [List.length_map, List.length_range]

/-- C1 counterexample: for a `2 ^ 22 * (2 ^ 32 + 1)`-byte file (4 MiB
chunks, hence `2 ^ 32 + 1` chunks) the emitted chunk indices are
`i % 2 ^ 32`, which differs from the claimed `0, 1, ..., N-1`: the
`u32` counter wraps at chunk `2 ^ 32`. -/
theorem c1_counterexample :
    ((sendFile (fun _ => []) (2 ^ 22 * (2 ^ 32 + 1) + 1) [1] [2]
        (List.replicate (2 ^ 22 * (2 ^ 32 + 1)) 0) (fun _ => .inProgress)
        [] false [3] [4]).map
      (fun p => ((p.1.filterMap chunkMsgOf).map Prod.fst,
                 (p.1.filterMap chunkMsgOf).length)) =
      some ((List.range (2 ^ 32 + 1)).map (fun i => i % 2 ^ 32),
        2 ^ 32 + 1)) ∧
    (List.range (2 ^ 32 + 1)).map (fun i => i % 2 ^ 32) ≠
      List.range (2 ^ 32 + 1) := by
  refine ⟨c1BigRunEq, ?_⟩
  intro heq
  have h1 := congrArg (fun l => l[2 ^ 32]?) heq
  simp only [List.getElem?_map] at h1
  rw [List.getElem?_range (by omega)] at h1
  simp only [Option.map_some'] at h1
  have h2 : (2 ^ 32 : Nat) % 2 ^ 32 = 2 ^ 32 := Option.some.inj h1
  norm_num at h2

/-!
Completion-ack window (claims C3 and C8).
-/

/-- C3 counterexample: the 30-second budget is not a total budget.  A
`HistorySync` arriving after 29 s re-arms the timeout, so an ack
arriving 29 s later still — 58 s after the close in total — is
accepted, where the claim requires `ACK_TIMEOUT` after 30 s in total. -/
theorem c3_counterexample :
    (ackWait [1] true [(29, .deliver (.HistorySync [])),
        (29, .deliver (.TransferCompleteAck [1]))]).2 = .ok ∧
    (ackWait [1] true [(29, .deliver (.HistorySync [])),
        (29, .deliver (.TransferCompleteAck [1]))]).2 ≠ .ackTimeout ∧
    30 < 29 + 29 := by
  refine ⟨rfl, ?_, by norm_num⟩
  intro hx
  exact SenderResult.noConfusion (hx.symm.trans rfl)

/-- C3 (corrected).  The 30-second timeout is re-armed for every
`read_message` call in the ack-wait loop: `send_file` fails with
`ACK_TIMEOUT` when a single wait reaches 30 seconds after a (possibly
empty) prefix of fast `HistorySync` messages, or when the stream yields
nothing further after such a prefix; each `HistorySync` resets the
budget (see the counterexample). -/
theorem c3_ack_timeout_per_read (tid : RStr) (dbp : Bool) :
    (∀ hist : List (Nat × ArrOut), ∀ d : Nat, ∀ a : ArrOut,
      ∀ rest : List (Nat × ArrOut),
      (∀ x ∈ hist, x.1 < 30 ∧ ∃ recs, x.2 = .deliver (.HistorySync recs)) →
      30 ≤ d →
      (ackWait tid dbp (hist ++ (d, a) :: rest)).2 = .ackTimeout) ∧
    (∀ hist : List (Nat × ArrOut),
      (∀ x ∈ hist, x.1 < 30 ∧ ∃ recs, x.2 = .deliver (.HistorySync recs)) →
      (ackWait tid dbp hist).2 = .ackTimeout) := by
  constructor
  · intro hist
    induction hist with
    | nil =>
      intro d a rest _ hd
      rw [List.nil_append, ackWait.eq_def]
      simp only []
      rw [if_pos hd]
    | cons x hist ih =>
      intro d a rest hx hd
      obtain ⟨hx1, recs, hx2⟩ := hx x (by simp)
      obtain ⟨dx, ax⟩ := x
      simp only [] at hx2
      subst hx2
      rw [List.cons_append, ackWait.eq_def]
      simp only []
      rw [if_neg (by omega)]
      exact ih d a rest (fun y hy => hx y (by simp [hy])) hd
  · intro hist
    induction hist with
    | nil => intro _; rfl
    | cons x hist ih =>
      intro hx
      obtain ⟨hx1, recs, hx2⟩ := hx x (by simp)
      obtain ⟨dx, ax⟩ := x
      simp only [] at hx2
      subst hx2
      rw [ackWait.eq_def]
      simp only []
      rw [if_neg (by omega)]
      exact ih (fun y hy => hx y (by simp [hy]))

/-- Witness for C3: a 30-second silent read after one fast
`HistorySync` times out, and so does a stream that ends after one fast
`HistorySync`. -/
theorem c3_ack_timeout_per_read_witness :
    (ackWait [1] true [(0, .deliver (.HistorySync [])),
        (30, .deliver (.TransferCompleteAck [1]))]).2 = .ackTimeout ∧
    (ackWait [1] true [(0, .deliver (.HistorySync []))]).2 = .ackTimeout := by
  constructor
  · exact (c3_ack_timeout_per_read [1] true).1
      [(0, .deliver (.HistorySync []))] 30 (.deliver (.TransferCompleteAck [1]))
      [] (by intro x hx; simp at hx; subst hx; exact ⟨by norm_num, [], rfl⟩)
      (by norm_num)
  · exact (c3_ack_timeout_per_read [1] true).2
      [(0, .deliver (.HistorySync []))]
      (by intro x hx; simp at hx; subst hx; exact ⟨by norm_num, [], rfl⟩)

/-- C8 (confirmed).  In the completion-ack window: a fast
`TransferCompleteAck` with matching id succeeds; a fast `HistorySync`
is forwarded to the history database (both writes per record) followed
by a `history-updated` event and the wait continues; a
`TransferCompleteAck` with a different id, or any other message, is a
protocol error. -/
theorem c8_ack_window (tid : RStr) (dbp : Bool) :
    (∀ d : Nat, ∀ rest : List (Nat × ArrOut), d < 30 →
      ackWait tid dbp ((d, .deliver (.TransferCompleteAck tid)) :: rest) =
        ([], .ok)) ∧
    (∀ d : Nat, ∀ rest : List (Nat × ArrOut),
      ∀ recs : List TransferRecord, d < 30 →
      ackWait tid true ((d, .deliver (.HistorySync recs)) :: rest) =
        ((recs.map recActions).flatten ++ [Action.historyUpdated] ++
          (ackWait tid true rest).1, (ackWait tid true rest).2)) ∧
    (∀ d : Nat, ∀ rest : List (Nat × ArrOut), ∀ ackId : RStr, d < 30 →
      ackId ≠ tid →
      ackWait tid dbp ((d, .deliver (.TransferCompleteAck ackId)) :: rest) =
        ([], .protocolErr)) ∧
    (∀ d : Nat, ∀ rest : List (Nat × ArrOut), ∀ m : MessageType, d < 30 →
      (∀ i : RStr, m ≠ .TransferCompleteAck i) →
      (∀ recs : List TransferRecord, m ≠ .HistorySync recs) →
      (ackWait tid dbp ((d, .deliver m) :: rest)).2 = .protocolErr) := by
  refine ⟨?_, ?_, ?_, ?_⟩
  · intro d rest hd
    rw [ackWait.eq_def]
    simp only []
    rw [if_neg (by omega)]
    simp
  · intro d rest recs hd
    rw [ackWait.eq_def]
    simp only []
    rw [if_neg (by omega)]
    simp
  · intro d rest ackId hd hne
    rw [ackWait.eq_def]
    simp only []
    rw [if_neg (by omega)]
    rw [if_neg hne]
  · intro d rest m hd hne1 hne2
    rw [ackWait.eq_def]
    simp only []
    rw [if_neg (by omega)]

/-- Witness for C8: each arm exercised on concrete messages. -/
theorem c8_ack_window_witness :
    ackWait [1] true [(0, .deliver (.TransferCompleteAck [1]))] =
      ([], .ok) ∧
    ackWait [1] true [(0, .deliver (.HistorySync []))] =
      ((List.map recActions ([] : List TransferRecord)).flatten ++
        [Action.historyUpdated] ++ (ackWait [1] true []).1,
       (ackWait [1] true []).2) ∧
    ackWait [1] true [(0, .deliver (.TransferCompleteAck [2]))] =
      ([], .protocolErr) ∧
    (ackWait [1] true [(0, .deliver (.TransferPause [1]))]).2 =
      .protocolErr := by
  refine ⟨(c8_ack_window [1] true).1 0 [] (by norm_num),
    (c8_ack_window [1] true).2.1 0 [] [] (by norm_num),
    (c8_ack_window [1] true).2.2.1 0 [] [2] (by norm_num) (by decide),
    (c8_ack_window [1] true).2.2.2 0 [] (.TransferPause [1]) (by norm_num)
      (fun i => by intro hx; cases hx) (fun recs => by intro hx; cases hx)⟩

/-!
Registry writes of the sender (claim C9): the only registry write in
`send_file` is the `Completed` insert at end of file, placed before the
`TransferComplete` message; nothing after it writes the registry.
-/

/-- No action of the list is a registry write. -/
def noRegWrite (l : List Action) : Prop :=
  ∀ a ∈ l, ∀ t : RStr, ∀ s : TStatus, a ≠ .regWrite t s

theorem pauseWait_no_reg (tid : RStr) (sched : Nat → TStatus) :
    ∀ fuel status t lastSt acts cflag t2 last2,
      pauseWait tid sched fuel status t lastSt =
        some (acts, cflag, t2, last2) →
      noRegWrite acts := by
  intro fuel
  induction fuel with
  | zero =>
    intro status t lastSt acts cflag t2 last2 hpw
    rw [pauseWait] at hpw
    split at hpw
    · obtain ⟨rfl, _⟩ := Prod.mk.injEq .. |>.mp (Option.some.inj hpw)
      intro a ha
      simp at ha
    · simp at hpw
  | succ fuel ih =>
    intro status t lastSt acts cflag t2 last2 hpw
    rw [pauseWait] at hpw
    split at hpw
    · obtain ⟨rfl, _⟩ := Prod.mk.injEq .. |>.mp (Option.some.inj hpw)
      intro a ha
      simp at ha
    · simp only [] at hpw
      split at hpw
      · obtain ⟨rfl, _⟩ := Prod.mk.injEq .. |>.mp (Option.some.inj hpw)
        intro a ha t' s'
        simp at ha
        subst ha
        simp
      · split at hpw
        · split at hpw
          · simp at hpw
          · rename_i as1 c1 t1 l1 heq
            obtain ⟨rfl, _⟩ := Prod.mk.injEq .. |>.mp (Option.some.inj hpw)
            intro a ha t' s'
            simp only [List.mem_cons] at ha
            rcases ha with ha | ha
            · subst ha; simp
            · exact ih _ _ _ _ _ _ _ heq a ha t' s'
        · exact fun a ha t' s' => ih _ _ _ _ _ _ _ hpw a ha t' s'

theorem ackWait_no_reg (tid : RStr) (dbp : Bool) :
    ∀ arrivals, noRegWrite (ackWait tid dbp arrivals).1 := by
  intro arrivals
  induction arrivals with
  | nil => intro a ha; simp [ackWait] at ha
  | cons x rest ih =>
    obtain ⟨d, m⟩ := x
    intro a ha t' s'
    rw [ackWait.eq_def] at ha
    simp only [] at ha
    split at ha
    · simp at ha
    · match m with
      | .readErr => simp at ha
      | .deliver (.TransferCompleteAck ackId) =>
        simp only [] at ha
        split at ha <;> simp at ha
      | .deliver (.HistorySync recs) =>
        simp only [List.mem_append] at ha
        rcases ha with ha | ha
        · rcases ha with ha | ha
          · have hrec : ∀ rl : List TransferRecord,
                ∀ b ∈ (List.map recActions rl).flatten, ∀ tt : RStr,
                ∀ ss : TStatus, b ≠ Action.regWrite tt ss := by
              intro rl
              induction rl with
              | nil => intro b hb; simp at hb
              | cons r rs ihr =>
                intro b hb tt ss
                simp only [List.map_cons, List.flatten_cons,
                  List.mem_append] at hb
                rcases hb with hb | hb
                · simp only [recActions, List.mem_cons] at hb
                  rcases hb with hb | hb | hb
                  · subst hb; simp
                  · subst hb; simp
                  · simp at hb
                · exact ihr b hb tt ss
            split at ha
            · exact hrec recs a ha t' s'
            · simp at ha
          · simp only [List.mem_singleton] at ha
            subst ha
            simp
        · exact ih a ha t' s'
      | .deliver (.Hello a1 b1) => simp at ha
      | .deliver .HelloAck => simp at ha
      | .deliver (.FileOffer a1 b1 e1 f1) => simp at ha
      | .deliver (.FileAccept a1) => simp at ha
      | .deliver (.FileReject a1 b1) => simp at ha
      | .deliver (.ChunkData a1 b1 e1 f1) => simp at ha
      | .deliver (.ChunkAck a1 b1) => simp at ha
      | .deliver (.ResumeRequest a1 b1) => simp at ha
      | .deliver (.TransferPause a1) => simp at ha
      | .deliver (.TransferResume a1) => simp at ha
      | .deliver (.TransferCancel a1) => simp at ha
      | .deliver (.TransferComplete a1) => simp at ha
      | .deliver (.TransferError a1 b1) => simp at ha
      | .deliver (.PairRequest a1 b1 e1) => simp at ha
      | .deliver (.PairResponse a1 b1) => simp at ha
      | .deliver (.SyncRequest a1 b1) => simp at ha
      | .deliver (.SyncResponse a1) => simp at ha

theorem noRegWrite_append {l1 l2 : List Action} (h1 : noRegWrite l1)
    (h2 : noRegWrite l2) : noRegWrite (l1 ++ l2) := by
  intro a ha
  rcases List.mem_append.mp ha with ha | ha
  · exact h1 a ha
  · exact h2 a ha

theorem noRegWrite_cons {a : Action} {l : List Action}
    (h1 : ∀ t : RStr, ∀ s : TStatus, a ≠ .regWrite t s)
    (h2 : noRegWrite l) : noRegWrite (a :: l) := by
  intro b hb
  rcases List.mem_cons.mp hb with hb | hb
  · subst hb; exact h1
  · exact h2 b hb

theorem noRegWrite_nil : noRegWrite [] := by
  intro a ha
  simp at ha

theorem notifyActs_no_reg (tid : RStr) (status lastSt : TStatus) :
    noRegWrite (if status ≠ lastSt then
      match status with
      | .paused => [Action.sendMsg (.TransferPause tid)]
      | .inProgress =>
        if lastSt = .paused then [Action.sendMsg (.TransferResume tid)]
        else []
      | _ => []
    else []) := by
  split
  · cases status with
    | paused => exact noRegWrite_cons (by simp) noRegWrite_nil
    | inProgress =>
      show noRegWrite (if lastSt = TStatus.paused then
        [Action.sendMsg (MessageType.TransferResume tid)] else [])
      split
      · exact noRegWrite_cons (by simp) noRegWrite_nil
      · exact noRegWrite_nil
    | cancelled => exact noRegWrite_nil
    | completed => exact noRegWrite_nil
    | failed => exact noRegWrite_nil
  · exact noRegWrite_nil

theorem some_triple_inj {α β γ : Type} {a1 a2 : α} {b1 b2 : β} {c1 c2 : γ}
    (h : (some (a1, b1, c1) : Option (α × β × γ)) = some (a2, b2, c2)) :
    a1 = a2 ∧ b1 = b2 ∧ c1 = c2 := by
  injection h with h1
  injection h1 with h2 h3
  injection h3 with h4 h5
  exact ⟨h2, h4, h5⟩

/-- The chunk loop writes the registry exactly once — `Completed`, as
its final action — when it reaches end of file, and never on the
cancelled path. -/
theorem senderLoop_reg (h : List Nat → RStr) (c : Nat) (tid : RStr)
    (sched : Nat → TStatus) (total : Nat) :
    ∀ fuel t rest idx sent lastSt acts flag t2,
      senderLoop h c tid sched total fuel t rest idx sent lastSt =
        some (acts, flag, t2) →
      (flag = true → ∃ pre, acts = pre ++ [Action.regWrite tid .completed] ∧
        noRegWrite pre) ∧
      (flag = false → noRegWrite acts) := by
  intro fuel
  induction fuel with
  | zero =>
    intro t rest idx sent lastSt acts flag t2 hl
    rw [senderLoop] at hl
    simp at hl
  | succ fuel ih =>
    intro t rest idx sent lastSt acts flag t2 hl
    rw [senderLoop] at hl
    split at hl
    · obtain ⟨hA, hB, _⟩ := some_triple_inj hl
      subst hA
      subst hB
      refine ⟨fun hf => absurd hf (by decide), fun _ => ?_⟩
      exact noRegWrite_cons (by simp) noRegWrite_nil
    · simp only [] at hl
      split at hl
      · simp at hl
      · rename_i pActs t2a last2a heq
        obtain ⟨hA, hB, _⟩ := some_triple_inj hl
        subst hA
        subst hB
        refine ⟨fun hf => absurd hf (by decide), fun _ => ?_⟩
        exact noRegWrite_append (notifyActs_no_reg tid _ _)
          (pauseWait_no_reg tid sched _ _ _ _ _ _ _ _ heq)
      · rename_i pActs t2a last2a heq
        split at hl
        · obtain ⟨hA, hB, _⟩ := some_triple_inj hl
          subst hA
          subst hB
          refine ⟨fun _ => ?_, fun hf => absurd hf (by decide)⟩
          refine ⟨_, by rw [List.append_assoc], ?_⟩
          exact noRegWrite_append (notifyActs_no_reg tid _ _)
            (pauseWait_no_reg tid sched _ _ _ _ _ _ _ _ heq)
        · split at hl
          · simp at hl
          · rename_i as2 flag2 t3 heq2
            obtain ⟨hA, hB, _⟩ := some_triple_inj hl
            subst hA
            subst hB
            have hih := ih _ _ _ _ _ _ _ _ heq2
            refine ⟨fun hf => ?_, fun hf => ?_⟩
            · obtain ⟨pre2, hpre2, hnr2⟩ := hih.1 hf
              refine ⟨(if sched t ≠ lastSt then
                  match sched t with
                  | .paused => [Action.sendMsg (.TransferPause tid)]
                  | .inProgress =>
                    if lastSt = .paused then
                      [Action.sendMsg (.TransferResume tid)] else []
                  | _ => []
                else []) ++ pActs ++
                (Action.sendMsg (.ChunkData tid (idx % 2 ^ 32)
                  (rest.take (min c rest.length))
                  (h (rest.take (min c rest.length)))) ::
                 Action.progressEvt tid (sent + min c rest.length) total true ::
                 pre2), ?_, ?_⟩
              · rw [hpre2]
                simp [List.append_assoc]
              · refine noRegWrite_append (noRegWrite_append
                  (notifyActs_no_reg tid _ _)
                  (pauseWait_no_reg tid sched _ _ _ _ _ _ _ _ heq))
                  (noRegWrite_cons (by simp)
                    (noRegWrite_cons (by simp) hnr2))
            · exact noRegWrite_append (noRegWrite_append
                (notifyActs_no_reg tid _ _)
                (pauseWait_no_reg tid sched _ _ _ _ _ _ _ _ heq))
                (noRegWrite_cons (by simp)
                  (noRegWrite_cons (by simp) (hih.2 hf)))

/-- C9 (confirmed).  On a zero-byte read the sender marks the registry
entry `Completed` and that is its only registry write, placed
immediately before the `TransferComplete` message; no later step of
`send_file` (ack wait, history sync, final events) writes the registry,
so a run that fails with `ACK_TIMEOUT` or a protocol error still leaves
the entry `Completed`. -/
theorem c9_completed_survives_ack_failure (h : List Nat → RStr)
    (fuel : Nat) (tid fname : RStr) (content : List Nat)
    (sched : Nat → TStatus) (arrivals : List (Nat × ArrOut)) (dbp : Bool)
    (dvId dvName : RStr) (acts : List Action) (res : SenderResult)
    (hrun : sendFile h fuel tid fname content sched arrivals dbp dvId
      dvName = some (acts, res))
    (hres : res ≠ .cancelled) :
    ∃ pre post, acts = pre ++ [Action.regWrite tid .completed,
        Action.sendMsg (.TransferComplete tid)] ++ post ∧
      noRegWrite pre ∧ noRegWrite post := by
  rcases hL : senderLoop h (calculate_chunk_size content.length) tid sched
      content.length fuel 0 content 0 0 .inProgress with _ | ⟨⟨acts0, flag, t2⟩⟩
  · rw [sendFile, hL] at hrun
    simp at hrun
  · cases flag with
    | false =>
      rw [sendFile_cancelled h fuel tid fname content sched arrivals dbp
        dvId dvName acts0 t2 hL] at hrun
      have hp := Option.some.inj hrun
      have hres2 := congrArg Prod.snd hp
      simp only [] at hres2
      exact absurd hres2.symm hres
    | true =>
      rw [sendFile_complete h fuel tid fname content sched arrivals dbp
        dvId dvName acts0 t2 hL] at hrun
      have hp := Option.some.inj hrun
      have hacts := congrArg Prod.fst hp
      simp only [] at hacts
      obtain ⟨pre0, hpre0, hnr0⟩ :=
        ((senderLoop_reg h (calculate_chunk_size content.length) tid sched
          content.length) fuel 0 content 0 0 .inProgress acts0 true t2 hL).1
          rfl
      refine ⟨Action.sendMsg (.FileOffer tid ⟨fname, content.length,
          h content, calculate_chunk_size content.length % 2 ^ 32⟩ dvId
          dvName) :: pre0,
        (ackWait tid dbp arrivals).1 ++
          (if (ackWait tid dbp arrivals).2 = .ok then
            [Action.progressEvt tid content.length content.length true,
             Action.historyUpdated] else []), ?_, ?_, ?_⟩
      · rw [← hacts, hpre0]
        simp [List.append_assoc]
      · refine noRegWrite_cons (by simp) hnr0
      · refine noRegWrite_append (ackWait_no_reg tid dbp arrivals) ?_
        split
        · exact noRegWrite_cons (by simp)
            (noRegWrite_cons (by simp) noRegWrite_nil)
        · exact noRegWrite_nil

/-- Witness for C9: the concrete 3-byte run (which ends `.ok`, in
particular not cancelled) has its single registry write `Completed`
right before `TransferComplete`. -/
theorem c9_completed_survives_ack_failure_witness :
    ∃ pre post, c1WitnessActs = pre ++ [Action.regWrite [1] .completed,
        Action.sendMsg (.TransferComplete [1])] ++ post ∧
      noRegWrite pre ∧ noRegWrite post :=
  c9_completed_survives_ack_failure (fun _ => [42]) 5 [1] [2] [9, 8, 7]
    (fun _ => .inProgress) [(0, .deliver (.TransferCompleteAck [1]))] true
    [3] [4] c1WitnessActs .ok (by decide) (by decide)

/-!
Cancellation finality (claim C2), sender side.  If every registry read
from some index `k` on returns `Cancelled` and the chunk loop runs past
index `k`, it stops on the cancelled path with `TransferCancel` as its
final action.
-/

theorem some_quad_inj {α β γ δ : Type} {a1 a2 : α} {b1 b2 : β}
    {c1 c2 : γ} {d1 d2 : δ}
    (h : (some (a1, b1, c1, d1) : Option (α × β × γ × δ)) =
      some (a2, b2, c2, d2)) :
    a1 = a2 ∧ b1 = b2 ∧ c1 = c2 ∧ d1 = d2 := by
  injection h with h1
  injection h1 with ha h2
  injection h2 with hb h3
  injection h3 with hc hd
  exact ⟨ha, hb, hc, hd⟩

/-- Under a schedule that is `Cancelled` from index `k` on, the pause
wait-loop either reports the cancel with `TransferCancel` as its last
action, or proceeds having observed only indices below `k`, keeping
`last_status` away from `Cancelled`. -/
theorem pauseWait_cancelled (tid : RStr) (sched : Nat → TStatus) (k : Nat)
    (hc : ∀ j, k ≤ j → sched j = TStatus.cancelled) :
    ∀ fuel status t lastSt acts cflag t2 last2,
      pauseWait tid sched fuel status t lastSt =
        some (acts, cflag, t2, last2) →
      (cflag = true →
        ∃ pre, acts = pre ++ [Action.sendMsg (.TransferCancel tid)]) ∧
      (cflag = false → (t ≤ k → t2 ≤ k) ∧
        (lastSt ≠ .cancelled → last2 ≠ .cancelled)) := by
  intro fuel
  induction fuel with
  | zero =>
    intro status t lastSt acts cflag t2 last2 hpw
    rw [pauseWait] at hpw
    split at hpw
    · obtain ⟨h1, h2, h3, h4⟩ := some_quad_inj hpw
      subst h1; subst h2; subst h3; subst h4
      exact ⟨fun hf => absurd hf (by decide),
        fun _ => ⟨fun ht => ht, fun hl => hl⟩⟩
    · simp at hpw
  | succ fuel ih =>
    intro status t lastSt acts cflag t2 last2 hpw
    rw [pauseWait] at hpw
    split at hpw
    · obtain ⟨h1, h2, h3, h4⟩ := some_quad_inj hpw
      subst h1; subst h2; subst h3; subst h4
      exact ⟨fun hf => absurd hf (by decide),
        fun _ => ⟨fun ht => ht, fun hl => hl⟩⟩
    · simp only [] at hpw
      split at hpw
      · rename_i hsc
        obtain ⟨h1, h2, h3, h4⟩ := some_quad_inj hpw
        subst h1; subst h2; subst h3; subst h4
        exact ⟨fun _ => ⟨[], rfl⟩, fun hf => absurd hf (by decide)⟩
      · rename_i hsc
        split at hpw
        · rename_i hsi
          split at hpw
          · simp at hpw
          · rename_i as1 c1 t1 l1 heq
            obtain ⟨h1, h2, h3, h4⟩ := some_quad_inj hpw
            subst h1; subst h2; subst h3; subst h4
            have hih := ih _ _ _ _ _ _ _ heq
            constructor
            · intro hf
              obtain ⟨pre, hpre⟩ := hih.1 hf
              exact ⟨Action.sendMsg (.TransferResume tid) :: pre,
                by rw [hpre]; rfl⟩
            · intro hf
              have h2 := hih.2 hf
              constructor
              · intro ht
                have htk : t < k := by
                  by_contra hcon
                  have h3 := hc t (le_of_not_lt hcon)
                  rw [hsi] at h3
                  exact absurd h3 (by decide)
                exact h2.1 (by omega)
              · intro _
                exact h2.2 (by decide)
        · rename_i hsi
          have hih := ih _ _ _ _ _ _ _ hpw
          constructor
          · exact hih.1
          · intro hf
            have h2 := hih.2 hf
            refine ⟨fun ht => h2.1 ?_, h2.2⟩
            have htk : t < k := by
              by_contra hcon
              exact hsc (hc t (le_of_not_lt hcon))
            omega

/-- Under a schedule that is `Cancelled` from index `k` on, a chunk-loop
run whose final registry-observation index passes `k` ends on the
cancelled path (`flag = false`) with `TransferCancel` as the last emitted
action — in particular no `ChunkData` follows the observed cancel. -/
theorem senderLoop_cancelled (h : List Nat → RStr) (c : Nat) (tid : RStr)
    (sched : Nat → TStatus) (total k : Nat)
    (hc : ∀ j, k ≤ j → sched j = TStatus.cancelled) :
    ∀ fuel t rest idx sent lastSt acts flag t2,
      lastSt ≠ .cancelled →
      senderLoop h c tid sched total fuel t rest idx sent lastSt =
        some (acts, flag, t2) →
      k < t2 →
      flag = false ∧
        ∃ pre, acts = pre ++ [Action.sendMsg (.TransferCancel tid)] := by
  intro fuel
  induction fuel with
  | zero =>
    intro t rest idx sent lastSt acts flag t2 hlast hl hk
    rw [senderLoop] at hl
    simp at hl
  | succ fuel ih =>
    intro t rest idx sent lastSt acts flag t2 hlast hl hk
    rw [senderLoop] at hl
    split at hl
    · obtain ⟨hA, hB, hC⟩ := some_triple_inj hl
      subst hA; subst hB
      exact ⟨rfl, ⟨[], rfl⟩⟩
    · rename_i hnc
      simp only [] at hl
      split at hl
      · simp at hl
      · rename_i pActs t2a last2a heq
        obtain ⟨hA, hB, hC⟩ := some_triple_inj hl
        subst hA; subst hB
        refine ⟨rfl, ?_⟩
        obtain ⟨pre, hpre⟩ :=
          (pauseWait_cancelled tid sched k hc _ _ _ _ _ _ _ _ heq).1 rfl
        rw [hpre]
        exact ⟨_, (List.append_assoc _ _ _).symm⟩
      · rename_i pActs t2a last2a heq
        have hpw2 :=
          (pauseWait_cancelled tid sched k hc _ _ _ _ _ _ _ _ heq).2 rfl
        have hstc : sched t ≠ .cancelled := by
          intro hcc
          exact hnc ⟨fun he => hlast (he.symm.trans hcc), hcc⟩
        have htk : t < k := by
          by_contra hcon
          exact hstc (hc t (le_of_not_lt hcon))
        have ht2k : t2a ≤ k := hpw2.1 (by omega)
        split at hl
        · obtain ⟨hA, hB, hC⟩ := some_triple_inj hl
          exact absurd hk (by omega)
        · split at hl
          · simp at hl
          · rename_i as2 flag2 t3 heq2
            obtain ⟨hA, hB, hC⟩ := some_triple_inj hl
            subst hA; subst hB; subst hC
            have hlast2 : last2a ≠ .cancelled := by
              refine hpw2.2 ?_
              split
              · exact hstc
              · exact hlast
            obtain ⟨hfl, pre2, hpre2⟩ := ih _ _ _ _ _ _ _ _ hlast2 heq2 hk
            refine ⟨hfl, ?_⟩
            rw [hpre2]
            exact ⟨_, by
              rw [← List.cons_append, ← List.cons_append,
                ← List.append_assoc]⟩

/-!
Receiver model (`receiver.rs`, `FileReceiver::handle_transfer`).  The
registry (`self.transfers`, a `HashMap<String, TransferStatus>`) and the
filesystem are modelled as association lists with shadowing insert; the
open destination file is the pair of its path and the current write
position (the sequential `write_all` calls advance it).  The `select!`
loop is driven by an explicit event list: a network message or a firing
of the 500 ms poll timer.
-/

/-- `HashMap::get` / filesystem read on an association list. -/
def alookup (k : RStr) : List (RStr × α) → Option α
  | [] => none
  | (k2, v) :: rest => if k2 = k then some v else alookup k rest

/-- `HashMap::insert` / filesystem write: the new binding shadows. -/
def ainsert (k : RStr) (v : α) (m : List (RStr × α)) : List (RStr × α) :=
  (k, v) :: m

/-- `self.save_directory.join(&metadata.name)` (byte 47 is `/`). -/
def pathJoin (d n : RStr) : RStr := d ++ 47 :: n

/-- Overwrite `data` at byte offset `pos` of `content`: bytes of the
existing file beyond the written range are kept (`write(true)` without
`truncate`). -/
def writeAt (content : List Nat) (pos : Nat) (data : List Nat) :
    List Nat :=
  content.take pos ++ data ++ content.drop (pos + data.length)

/-- File contents straight after the offer-time
`OpenOptions::new().write(true).create(true).open(&path)` plus the
best-effort `fs2` `allocate(metadata.size)` (which extends a shorter
file with zero bytes when it succeeds): the prior contents `content0`
are NOT discarded — there is no `truncate(true)`. -/
def openedContent (allocOk : Bool) (size : Nat) (content0 : List Nat) :
    List Nat :=
  if allocOk ∧ content0.length < size then
    content0 ++ List.replicate (size - content0.length) 0
  else content0

/-- File contents after the offer-time open according to the spec's words
("Open (or truncate) `<save_dir>/<metadata.name>` for writing … created
(or truncated) at offer"): no prior content survives. -/
def openedContentSpec (allocOk : Bool) (size : Nat) : List Nat :=
  if allocOk then List.replicate size 0 else []

/-- Mutable state of `handle_transfer`: the open file (with write
position), `bytes_received`, `current_transfer_id`, `current_file_name`,
`current_file_size`, `last_status`, plus the filesystem and the shared
registry it reads and writes. -/
structure RecvState where
  file : Option (RStr × Nat)
  bytesReceived : Nat
  currentTransferId : RStr
  currentFileName : RStr
  currentFileSize : Nat
  lastStatus : TStatus
  disk : List (RStr × List Nat)
  registry : List (RStr × TStatus)
deriving DecidableEq, Repr

/-- Error classes of `handle_transfer`'s `Err` returns. -/
inductive RecvErr where
  | diskSpace
  | chunkHash
  | cancelledByPeer
  | cancelledLocal
deriving DecidableEq, Repr

/-- Outcome of one loop iteration: keep looping, `break` on
`TransferComplete`, or return an error. -/
inductive ROutcome where
  | running
  | done
  | err (e : RecvErr)
deriving DecidableEq, Repr

/-- The string `"receive"` (ASCII), the direction recorded for an
incoming transfer. -/
def dirReceive : RStr := [114, 101, 99, 101, 105, 118, 101]

/-- The string `"completed"` (ASCII). -/
def stCompleted : RStr := [99, 111, 109, 112, 108, 101, 116, 101, 100]

/-- One network-message arm of the `select!` loop (`receiver.rs` lines
61-250).  `h` is the BLAKE3 hex digest, `freeSpace` the value
`fs2::available_space` reports for the save directory's parent,
`allocOk` whether the best-effort pre-allocation succeeds and `dbp`
whether a history database is open. -/
def recvStep (h : List Nat → RStr) (saveDir : RStr) (freeSpace : Nat)
    (allocOk dbp : Bool) (st : RecvState) :
    MessageType → RecvState × List Action × ROutcome
  | .FileOffer tid meta senderId _ =>
    if freeSpace < meta.size then (st, [], .err .diskSpace)
    else
      let path := pathJoin saveDir meta.name
      let dbActs : List Action := if dbp then
          [.dbRecord tid senderId meta.name path (toI64 meta.size)
            dirReceive meta.hash]
        else []
      let content0 := (alookup path st.disk).getD []
      ({ st with
          file := some (path, 0)
          currentTransferId := tid
          currentFileName := meta.name
          currentFileSize := meta.size
          registry := ainsert tid .inProgress st.registry
          disk := ainsert path (openedContent allocOk meta.size content0)
            st.disk },
        dbActs, .running)
  | .ChunkData _ _ data chunkHash =>
    match st.file with
    | none => (st, [], .running)
    | some (path, pos) =>
      if h data ≠ chunkHash then (st, [], .err .chunkHash)
      else
        let content := (alookup path st.disk).getD []
        ({ st with
            file := some (path, pos + data.length)
            bytesReceived := st.bytesReceived + data.length
            disk := ainsert path (writeAt content pos data) st.disk },
          [.progressEvt st.currentTransferId
            (st.bytesReceived + data.length) st.currentFileSize false],
          .running)
  | .TransferPause _ =>
    ({ st with
        registry := ainsert st.currentTransferId .paused st.registry
        lastStatus := .paused }, [], .running)
  | .TransferResume _ =>
    ({ st with
        registry := ainsert st.currentTransferId .inProgress st.registry
        lastStatus := .inProgress }, [], .running)
  | .TransferCancel _ =>
    ({ st with
        registry := ainsert st.currentTransferId .cancelled st.registry },
      [], .err .cancelledByPeer)
  | .TransferComplete tid =>
    ({ st with file := none },
      (if dbp then
        [.dbUpdateStatus tid stCompleted (toI64 st.currentFileSize)]
      else []) ++ [.sendMsg (.TransferCompleteAck tid), .connClose],
      .done)
  | .HistorySync recs =>
    (st, if dbp then (recs.map recActions).flatten else [], .running)
  | .PairRequest dId dName code =>
    (st, [.pairingEvt dId dName code], .running)
  | _ => (st, [], .running)

/-- The 500 ms poll arm of the `select!` loop (`receiver.rs` lines
254-296): with a transfer underway, read the registry; on a change send
the matching control message, returning an error when the entry was set
to `Cancelled` locally. -/
def recvPoll (st : RecvState) : RecvState × List Action × ROutcome :=
  if st.currentTransferId = [] then (st, [], .running)
  else
    let status := (alookup st.currentTransferId st.registry).getD
      .inProgress
    if status ≠ st.lastStatus then
      match status with
      | .cancelled =>
        (st, [.sendMsg (.TransferCancel st.currentTransferId)],
          .err .cancelledLocal)
      | .paused =>
        ({ st with lastStatus := .paused },
          [.sendMsg (.TransferPause st.currentTransferId)], .running)
      | .inProgress =>
        if st.lastStatus = .paused then
          ({ st with lastStatus := .inProgress },
            [.sendMsg (.TransferResume st.currentTransferId)], .running)
        else ({ st with lastStatus := .inProgress }, [], .running)
      | s => ({ st with lastStatus := s }, [], .running)
    else (st, [], .running)

/-- An event driving one `select!` iteration. -/
inductive REvent where
  | net (m : MessageType)
  | poll
deriving DecidableEq, Repr

/-- The `handle_transfer` loop over an event schedule, with early exit
on `break` or `Err`. -/
def recvRun (h : List Nat → RStr) (saveDir : RStr) (freeSpace : Nat)
    (allocOk dbp : Bool) : List REvent → RecvState →
    RecvState × List Action × ROutcome
  | [], st => (st, [], .running)
  | e :: rest, st =>
    let r1 := match e with
      | .net m => recvStep h saveDir freeSpace allocOk dbp st m
      | .poll => recvPoll st
    match r1.2.2 with
    | .running =>
      let r2 := recvRun h saveDir freeSpace allocOk dbp rest r1.1
      (r2.1, r1.2.1 ++ r2.2.1, r2.2.2)
    | o => (r1.1, r1.2.1, o)

/-- State at the top of `handle_transfer` (`receiver.rs` lines 49-54). -/
def initRecvState (disk : List (RStr × List Nat))
    (registry : List (RStr × TStatus)) : RecvState :=
  ⟨none, 0, [], [], 0, .inProgress, disk, registry⟩

/-- C2 (confirmed).  Cancellation finality.  Sender: under a registry
schedule that reads `Cancelled` from index `k` on, a chunk-loop run whose
observations pass `k` stops with `TransferCancel` as its last action (so
no `ChunkData` follows the observed cancel) and `send_file` fails with
the cancelled error.  Receiver: a `TransferCancel` from the sender marks
the registry entry `Cancelled` and `handle_transfer` fails with
"cancelled by sender"; a locally cancelled registry entry seen by the
500 ms poll makes it send `TransferCancel` and fail with "cancelled by
receiver". -/
theorem c2_cancellation_finality :
    (∀ (h : List Nat → RStr) (fuel : Nat) (tid fname : RStr)
        (content : List Nat) (sched : Nat → TStatus)
        (arrivals : List (Nat × ArrOut)) (dbp : Bool) (dvId dvName : RStr)
        (k : Nat) (acts0 : List Action) (flag : Bool) (tEnd : Nat),
      (∀ j, k ≤ j → sched j = TStatus.cancelled) →
      senderLoop h (calculate_chunk_size content.length) tid sched
        content.length fuel 0 content 0 0 .inProgress =
          some (acts0, flag, tEnd) →
      k < tEnd →
      flag = false ∧
        acts0.getLast? = some (Action.sendMsg (.TransferCancel tid)) ∧
        sendFile h fuel tid fname content sched arrivals dbp dvId dvName =
          some (Action.sendMsg (.FileOffer tid ⟨fname, content.length,
              h content, calculate_chunk_size content.length % 2 ^ 32⟩
              dvId dvName) :: acts0, .cancelled)) ∧
    (∀ (h : List Nat → RStr) (saveDir : RStr) (freeSpace : Nat)
        (allocOk dbp : Bool) (st : RecvState) (tid : RStr),
      recvStep h saveDir freeSpace allocOk dbp st (.TransferCancel tid) =
        ({ st with registry :=
            ainsert st.currentTransferId .cancelled st.registry },
          [], .err .cancelledByPeer)) ∧
    (∀ st : RecvState,
      st.currentTransferId ≠ [] →
      alookup st.currentTransferId st.registry = some .cancelled →
      st.lastStatus ≠ .cancelled →
      recvPoll st =
        (st, [Action.sendMsg (.TransferCancel st.currentTransferId)],
          .err .cancelledLocal)) := by
  refine ⟨?_, ?_, ?_⟩
  · intro h fuel tid fname content sched arrivals dbp dvId dvName k acts0
      flag tEnd hc hrun hk
    obtain ⟨hfl, pre, hpre⟩ := senderLoop_cancelled h
      (calculate_chunk_size content.length) tid sched content.length k hc
      fuel 0 content 0 0 .inProgress acts0 flag tEnd (by decide) hrun hk
    subst hfl
    refine ⟨rfl, ?_, ?_⟩
    · rw [hpre]
      exact List.getLast?_concat _
    · exact sendFile_cancelled h fuel tid fname content sched arrivals dbp
        dvId dvName acts0 tEnd hrun
  · intro h saveDir freeSpace allocOk dbp st tid
    rfl
  · intro st h1 h2 h3
    rw [recvPoll, if_neg h1]
    simp only []
    rw [h2]
    simp only [Option.getD_some]
    rw [if_pos (fun he => h3 he.symm)]

/-- Witness for C2 at concrete inputs: a registry cancelled from time 0
stops a 1-byte send with a final `TransferCancel` and the cancelled
result; a received `TransferCancel` and a locally cancelled registry
entry both fail the receiver. -/
theorem c2_cancellation_finality_witness :
    (false = false ∧
      [Action.sendMsg (.TransferCancel [1])].getLast? =
        some (Action.sendMsg (.TransferCancel [1])) ∧
      sendFile (fun _ => [42]) 1 [1] [2] [9] (fun _ => .cancelled) [] true
          [3] [4] =
        some ([Action.sendMsg (.FileOffer [1] ⟨[2], 1, [42], 65536⟩
          [3] [4]), Action.sendMsg (.TransferCancel [1])], .cancelled)) ∧
    (recvStep (fun _ => [0]) [4] 10 true true
        ⟨some ([1], 0), 0, [2], [3], 5, .inProgress, [], []⟩
        (.TransferCancel [8]) =
      (⟨some ([1], 0), 0, [2], [3], 5, .inProgress, [],
        [([2], .cancelled)]⟩, [], .err .cancelledByPeer)) ∧
    (recvPoll ⟨some ([1], 0), 0, [2], [3], 5, .inProgress, [],
        [([2], .cancelled)]⟩ =
      (⟨some ([1], 0), 0, [2], [3], 5, .inProgress, [],
        [([2], .cancelled)]⟩,
        [Action.sendMsg (.TransferCancel [2])], .err .cancelledLocal)) :=
  ⟨c2_cancellation_finality.1 (fun _ => [42]) 1 [1] [2] [9]
      (fun _ => .cancelled) [] true [3] [4] 0
      [Action.sendMsg (.TransferCancel [1])] false 1
      (fun _ _ => rfl) (by decide) (by decide),
    c2_cancellation_finality.2.1 (fun _ => [0]) [4] 10 true true
      ⟨some ([1], 0), 0, [2], [3], 5, .inProgress, [], []⟩ [8],
    c2_cancellation_finality.2.2
      ⟨some ([1], 0), 0, [2], [3], 5, .inProgress, [],
        [([2], .cancelled)]⟩ (by decide) (by decide) (by decide)⟩

/-- Events of the C4 run: offer a 1-byte file named `n`, one matching
chunk `[9]`, then `TransferComplete`. -/
def c4Events : List REvent :=
  [.net (.FileOffer [5] ⟨[110], 1, [9], 65536⟩ [6] [7]),
   .net (.ChunkData [5] 0 [9] [9]),
   .net (.TransferComplete [5])]

/-- The C4 run: the destination path already holds `[1, 2, 3]`. -/
def c4Run : RecvState × List Action × ROutcome :=
  recvRun (fun d => d) [100] 10 false false c4Events
    (initRecvState [(pathJoin [100] [110], [1, 2, 3])] [])

/-- C4 (code bug).  The receiver opens the destination with
`write(true).create(true)` and no `truncate(true)`, so a completed
1-byte transfer to a path that already held `[1, 2, 3]` leaves the file
as `[9, 2, 3]`: the stale tail `[2, 3]` of the prior content survives,
while the spec's open-or-truncate semantics would leave `[9]`. -/
theorem c4_no_truncate_stale_tail :
    c4Run.2.2 = .done ∧
    alookup (pathJoin [100] [110]) c4Run.1.disk = some [9, 2, 3] ∧
    writeAt (openedContentSpec false 1) 0 [9] = [9] ∧
    ([9, 2, 3] : List Nat) ≠ [9] := by
  decide

/-- C6 (confirmed).  A `ChunkData` whose BLAKE3 digest differs from its
`chunk_hash` field fails `handle_transfer` with the chunk-hash error
before anything happens: the state (file contents, write position,
`bytes_received`, registry) is unchanged and no event is emitted. -/
theorem c6_chunk_hash_mismatch (h : List Nat → RStr) (saveDir : RStr)
    (freeSpace : Nat) (allocOk dbp : Bool) (st : RecvState) (path : RStr)
    (pos : Nat) (tid : RStr) (idx : Nat) (data : List Nat) (chash : RStr)
    (hfile : st.file = some (path, pos)) (hmis : h data ≠ chash) :
    recvStep h saveDir freeSpace allocOk dbp st
      (.ChunkData tid idx data chash) = (st, [], .err .chunkHash) := by
  simp only [recvStep]
  rw [hfile]
  simp only []
  rw [if_pos hmis]

/-- Witness for C6: a mismatched chunk against a concrete open file. -/
theorem c6_chunk_hash_mismatch_witness :
    recvStep (fun _ => [0]) [4] 10 true true
      ⟨some ([1], 0), 0, [2], [3], 5, .inProgress, [([1], [])], []⟩
      (.ChunkData [2] 0 [7] [9]) =
    (⟨some ([1], 0), 0, [2], [3], 5, .inProgress, [([1], [])], []⟩,
      [], .err .chunkHash) :=
  c6_chunk_hash_mismatch (fun _ => [0]) [4] 10 true true
    ⟨some ([1], 0), 0, [2], [3], 5, .inProgress, [([1], [])], []⟩
    [1] 0 [2] 0 [7] [9] rfl (by decide)

/-- C7 (confirmed).  A `FileOffer` whose `metadata.size` exceeds the
free space fails with the disk-space error as the very first step of the
offer handling: the state is returned unchanged, so no destination file
is created on the disk and no registry entry is made. -/
theorem c7_disk_space_preflight (h : List Nat → RStr) (saveDir : RStr)
    (freeSpace : Nat) (allocOk dbp : Bool) (st : RecvState) (tid : RStr)
    (meta : FileMetadata) (senderId senderName : RStr)
    (hlt : freeSpace < meta.size) :
    recvStep h saveDir freeSpace allocOk dbp st
      (.FileOffer tid meta senderId senderName) =
      (st, [], .err .diskSpace) := by
  simp only [recvStep]
  rw [if_pos hlt]

/-- Witness for C7: a 4-byte offer against 3 bytes of free space. -/
theorem c7_disk_space_preflight_witness :
    recvStep (fun _ => [0]) [4] 3 true true (initRecvState [] [])
      (.FileOffer [5] ⟨[110], 4, [9], 65536⟩ [6] [7]) =
    (initRecvState [] [], [], .err .diskSpace) :=
  c7_disk_space_preflight (fun _ => [0]) [4] 3 true true
    (initRecvState [] []) [5] ⟨[110], 4, [9], 65536⟩ [6] [7] (by decide)

/-- C10 (confirmed).  A `ChunkData` arriving while no destination file
is open (`file == None`, i.e. before any `FileOffer`) is silently
ignored whatever its fields: `handle_transfer` keeps looping with the
state unchanged and emits nothing. -/
theorem c10_chunk_before_offer_ignored (h : List Nat → RStr)
    (saveDir : RStr) (freeSpace : Nat) (allocOk dbp : Bool)
    (st : RecvState) (tid : RStr) (idx : Nat) (data : List Nat)
    (chash : RStr) (hfile : st.file = none) :
    recvStep h saveDir freeSpace allocOk dbp st
      (.ChunkData tid idx data chash) = (st, [], .running) := by
  simp only [recvStep]
  rw [hfile]

/-- Witness for C10: a chunk into the initial (file-less) state. -/
theorem c10_chunk_before_offer_ignored_witness :
    recvStep (fun _ => [0]) [4] 10 true true
      (initRecvState [([1], [2])] [([3], .paused)])
      (.ChunkData [2] 0 [7] [9]) =
    (initRecvState [([1], [2])] [([3], .paused)], [], .running) :=
  c10_chunk_before_offer_ignored (fun _ => [0]) [4] 10 true true
    (initRecvState [([1], [2])] [([3], .paused)]) [2] 0 [7] [9] rfl

end Proxishare
